import Mathlib

/-!
Verification of the antigravity-proxy translation core.

This file gives a shallow embedding, in Lean 4, of the pure translation and
preparation functions of the proxy:

* the JSON-schema converter `ConvertSchema`,
* request sanitization (`sanitizeContents`, `isEmptyContentPart`),
* session-id derivation (`deriveSessionID`),
* function-response id reconciliation (`ensureFunctionResponseIDs`),
* the SSE line transformer (`TransformSSELine`, `unwrapCloudCodeResponse`),
* the unary upstream failover loop (`GenerateContent` / `doRequest`),
* OpenAI-to-Gemini message translation (`convertMessagesToGeminiContents`).

Go JSON values (`interface{}` holding the result of `json.Unmarshal`) are
modelled by the inductive type `JVal`; Go maps `map[string]T` are modelled as
association lists with first-match lookup and replace-or-append update, which
matches Go map semantics key-wise (iteration order, which Go randomizes, is
determinized by list order and never relied on in theorems except through
key lookup).  Calls into the Go standard library (SHA-256, JSON
encode/decode, UUID generation) are abstracted as function parameters.
-/

namespace AGProxy

/-- Go JSON value (`interface{}` after `json.Unmarshal`).  Numbers are
modelled as `Int`: no code path inspected here reads a numeric value. -/
inductive JVal where
  | str (s : String)
  | num (n : Int)
  | bool (b : Bool)
  | null
  | arr (xs : List JVal)
  | obj (fields : List (String × JVal))
  deriving Repr, BEq

/-- First-match lookup in an association list, the model of `m[k]` on a Go
map (Go maps have unique keys, so first-match is exact). -/
def lookupJ : List (String × JVal) → String → Option JVal
  | [], _ => none
  | (k', v) :: rest, k => if k' = k then some v else lookupJ rest k

/-- Replace-or-append update, the model of `m[k] = v` on a Go map. -/
def setKeyJ : List (String × JVal) → String → JVal → List (String × JVal)
  | [], k, v => [(k, v)]
  | (k', v') :: rest, k, v =>
      if k' = k then (k, v) :: rest else (k', v') :: setKeyJ rest k v

/-- Type assertion `x.(string)`. -/
def asStr : Option JVal → Option String
  | some (.str s) => some s
  | _ => none

/-- Type assertion `x.([]interface\x7b\x7d)`. -/
def asArr : Option JVal → Option (List JVal)
  | some (.arr xs) => some xs
  | _ => none

/-- Type assertion `x.(map[string]interface\x7b\x7d)`. -/
def asObj : Option JVal → Option (List (String × JVal))
  | some (.obj fs) => some fs
  | _ => none

/-- `antigravity.FunctionCall`: a tool call emitted by the model. -/
structure FunctionCall where
  id : String := ""
  name : String := ""
  args : List (String × JVal) := []
  deriving Repr, BEq

/-- `antigravity.FunctionResponse`: a tool result supplied by the caller. -/
structure FunctionResponse where
  id : String := ""
  name : String := ""
  response : List (String × JVal) := []
  deriving Repr, BEq

/-- `antigravity.ContentPart`: one part of a content message. -/
structure ContentPart where
  text : String := ""
  thoughtSignature : String := ""
  functionCall : Option FunctionCall := none
  functionResponse : Option FunctionResponse := none
  deriving Repr, BEq

/-- `antigravity.Content`: one turn of the chat history. -/
structure Content where
  role : String := ""
  parts : List ContentPart := []
  deriving Repr, BEq

/-- `antigravity.SystemInstruction`. -/
structure SystemInstruction where
  role : String := ""
  parts : List ContentPart := []
  deriving Repr, BEq

/-- `isEmptyContentPart` (request.go): a part is empty when it carries no
function call, no function response, and blank text. -/
def isEmptyContentPart (part : ContentPart) : Bool :=
  if part.functionCall.isSome || part.functionResponse.isSome then false
  else part.text = ""

/-- `sanitizeContents` (request.go): drop empty parts, then drop contents
left with no parts; returns the cleaned list plus the two prune counters. -/
def sanitizeContents (contents : List Content) : List Content × Nat × Nat :=
  match contents with
  | [] => ([], 0, 0)
  | content :: rest =>
      let (cleaned, prunedParts, prunedContents) := sanitizeContents rest
      if content.parts.isEmpty then
        (cleaned, prunedParts, prunedContents + 1)
      else
        let parts := content.parts.filter (fun p => !isEmptyContentPart p)
        let dropped := content.parts.length - parts.length
        if parts.isEmpty then
          (cleaned, prunedParts + dropped, prunedContents + 1)
        else
          ({ content with parts := parts } :: cleaned, prunedParts + dropped,
            prunedContents)

/-- `strings.ToLower`, restricted to ASCII (every string this code lowers
is an ASCII role name).  Defined over the character list so that it reduces
definitionally. -/
def lowerAscii (s : String) : String :=
  String.mk (s.data.map (fun c =>
    if 65 ≤ c.toNat ∧ c.toNat ≤ 90 then Char.ofNat (c.toNat + 32) else c))

/-- Go whitespace test (`unicode.IsSpace`) on the characters that occur in
identifiers here: space, tab, newline, carriage return. -/
def isSpaceCh (c : Char) : Bool :=
  c = ' ' || c = '\t' || c = '\n' || c = '\r'

/-- `strings.TrimSpace`, over the character list. -/
def trimStr (s : String) : String :=
  String.mk (((s.data.dropWhile isSpaceCh).reverse.dropWhile isSpaceCh).reverse)

/-- `strings.Join xs sep`. -/
def joinWith (sep : String) : List String → String
  | [] => ""
  | [x] => x
  | x :: y :: rest => x ++ sep ++ joinWith sep (y :: rest)

/-- One hex nibble to its lowercase character (encoding/hex). -/
def hexDigit (n : Nat) : Char :=
  if n < 10 then Char.ofNat (48 + n) else Char.ofNat (87 + n)

/-- `hex.EncodeToString` as a character list: two lowercase hex digits per
byte, in byte order. -/
def hexChars : List Nat → List Char
  | [] => []
  | b :: rest => hexDigit (b / 16 % 16) :: hexDigit (b % 16) :: hexChars rest

/-- The non-empty text fields of a part list, in order (the `parts`
accumulation loop of `deriveSessionID`). -/
def nonEmptyTexts (parts : List ContentPart) : List String :=
  parts.filterMap (fun p => if p.text = "" then none else some p.text)

/-- The newline-joined text of the first user-role content that has at
least one non-empty text part, if any. -/
def firstUserJoinedText : List Content → Option String
  | [] => none
  | msg :: rest =>
      if lowerAscii msg.role ≠ "user" then firstUserJoinedText rest
      else
        let parts := nonEmptyTexts msg.parts
        if parts.isEmpty then firstUserJoinedText rest
        else some (joinWith "\n" parts)

/-- `deriveSessionID` (request.go).  The SHA-256 digest (crypto/sha256, a
standard-library call) is abstracted as the parameter `sha`, returning the
digest bytes of the UTF-8 encoding of its argument.  The result is the
first 32 hex characters of the digest of the newline-joined non-empty text
parts of the first user content; `none` stands for the random
`uuid.NewString()` fallback taken when no such content exists. -/
def deriveSessionID (sha : String → List Nat) : List Content → Option String
  | [] => none
  | msg :: rest =>
      if lowerAscii msg.role ≠ "user" then deriveSessionID sha rest
      else
        let parts := nonEmptyTexts msg.parts
        if parts.isEmpty then deriveSessionID sha rest
        else some (String.mk ((hexChars (sha (joinWith "\n" parts))).take 32))

/-- Helper of `removeFirstMatch`: drop the first occurrence of `target`. -/
def removeFirstAux (target : String) : List String → List String
  | [] => []
  | v :: rest => if v = target then rest else v :: removeFirstAux target rest

/-- `removeFirstMatch` (request.go): remove the first occurrence of
`target`, doing nothing for a blank target. -/
def removeFirstMatch (values : List String) (target : String) : List String :=
  if target = "" then values else removeFirstAux target values

/-- Read of Go's `map[string][]string` (a missing key reads as nil). -/
def getQ : List (String × List String) → String → List String
  | [], _ => []
  | (k', v) :: rest, k => if k' = k then v else getQ rest k

/-- Write of Go's `map[string][]string`. -/
def setQ : List (String × List String) → String → List String → List (String × List String)
  | [], k, v => [(k, v)]
  | (k', v') :: rest, k, v =>
      if k' = k then (k, v) :: rest else (k', v') :: setQ rest k v

/-- The state threaded through `ensureFunctionResponseIDs`: the global FIFO
queue `pending` of function-call IDs, the per-name queues `perName`, and
the count of IDs backfilled so far. -/
structure ReconcileState where
  pending : List String := []
  perName : List (String × List String) := []
  missing : Nat := 0
  deriving Repr, BEq

/-- The branch of `ensureFunctionResponseIDs` that serves an ID-less
response from its own name's queue (lines 153-159 of request.go). -/
def assignFromName (st : ReconcileState) (name : String) :
    Option (String × ReconcileState) :=
  if name = "" then none
  else
    match getQ st.perName name with
    | [] => none
    | id :: rest =>
        some (id, { st with perName := setQ st.perName name rest,
                            pending := removeFirstMatch st.pending id })

/-- The fallback branch that serves an ID-less response from the global
queue (lines 160-166 of request.go). -/
def assignFromPending (st : ReconcileState) (name : String) :
    Option (String × ReconcileState) :=
  match st.pending with
  | [] => none
  | id :: rest =>
      some (id, { st with pending := rest,
                          perName :=
                            if name = "" then st.perName
                            else setQ st.perName name
                              (removeFirstMatch (getQ st.perName name) id) })

/-- One part of the `ensureFunctionResponseIDs` scan (request.go 124-172):
a function call with a non-blank ID enqueues it (globally and under its
name); a response that already carries an ID consumes matching queue
entries; an ID-less response is assigned from its name's queue, else from
the global queue, consuming the ID from both. -/
def reconcileStep (st : ReconcileState) (part : ContentPart) :
    ReconcileState × ContentPart :=
  match part.functionCall with
  | some fc =>
      let id := trimStr fc.id
      if id = "" then (st, part)
      else
        let name := trimStr fc.name
        ({ st with pending := st.pending ++ [id],
                   perName :=
                     if name = "" then st.perName
                     else setQ st.perName name (getQ st.perName name ++ [id]) },
          part)
  | none =>
      match part.functionResponse with
      | none => (st, part)
      | some fr =>
          if trimStr fr.id ≠ "" then
            ({ st with pending := removeFirstMatch st.pending fr.id,
                       perName :=
                         if trimStr fr.name = "" then st.perName
                         else setQ st.perName (trimStr fr.name)
                           (removeFirstMatch (getQ st.perName (trimStr fr.name)) fr.id) },
              part)
          else
            let name := trimStr fr.name
            match assignFromName st name with
            | some (id, st') =>
                ({ st' with missing := st'.missing + 1 },
                  { part with functionResponse := some { fr with id := id } })
            | none =>
                match assignFromPending st name with
                | some (id, st') =>
                    ({ st' with missing := st'.missing + 1 },
                      { part with functionResponse := some { fr with id := id } })
                | none => (st, part)

/-- The inner loop of `ensureFunctionResponseIDs` over one part list. -/
def reconcileParts (st : ReconcileState) : List ContentPart → ReconcileState × List ContentPart
  | [] => (st, [])
  | p :: rest =>
      let s1 := reconcileStep st p
      let s2 := reconcileParts s1.1 rest
      (s2.1, s1.2 :: s2.2)

/-- The outer loop of `ensureFunctionResponseIDs` over the contents. -/
def reconcileContents (st : ReconcileState) : List Content → ReconcileState × List Content
  | [] => (st, [])
  | c :: rest =>
      let s1 := reconcileParts st c.parts
      let s2 := reconcileContents s1.1 rest
      (s2.1, { c with parts := s1.2 } :: s2.2)

/-- `ensureFunctionResponseIDs` (request.go): returns the rewritten
contents and the number of IDs backfilled. -/
def ensureFunctionResponseIDs (contents : List Content) : List Content × Nat :=
  let s := reconcileContents {} contents
  (s.2, s.1.missing)

/-- `deriveSessionID` factors through `firstUserJoinedText`. -/
theorem deriveSessionID_eq_map (sha : String → List Nat) (contents : List Content) :
    deriveSessionID sha contents =
      (firstUserJoinedText contents).map
        (fun t => String.mk ((hexChars (sha t)).take 32)) := by
  induction contents with
  | nil => rfl
  | cons msg rest ih =>
      by_cases h : lowerAscii msg.role ≠ "user"
      · simp [deriveSessionID, firstUserJoinedText, h, ih]
      · by_cases h2 : (nonEmptyTexts msg.parts).isEmpty
        · simp [deriveSessionID, firstUserJoinedText, h, h2, ih]
        · simp [deriveSessionID, firstUserJoinedText, h, h2]

/-- `hexChars` yields two characters per byte. -/
theorem hexChars_length (bytes : List Nat) :
    (hexChars bytes).length = 2 * bytes.length := by
  induction bytes with
  | nil => rfl
  | cons b rest ih => simp [hexChars, ih]; ring

/-- The cleaned list produced by `sanitizeContents` is exactly: filter the
empty parts out of each content, then keep the contents with a non-empty
part list. -/
theorem sanitizeContents_eq_filter (contents : List Content) :
    (sanitizeContents contents).1 =
      (contents.map
        (fun c => { c with parts := c.parts.filter (fun p => !isEmptyContentPart p) })).filter
        (fun c => !c.parts.isEmpty) := by
  induction contents with
  | nil => rfl
  | cons c rest ih =>
      by_cases h : c.parts.isEmpty
      · have hnil : c.parts = [] := by
          cases hp : c.parts with
          | nil => rfl
          | cons a l => rw [hp] at h; simp [List.isEmpty] at h
        simp [sanitizeContents, h, hnil, ih]
      · by_cases h2 : (c.parts.filter (fun p => !isEmptyContentPart p)).isEmpty
        · simp [sanitizeContents, h, h2, ih]
        · simp [sanitizeContents, h, h2, ih]

/-- `strings.HasPrefix s p`. -/
def startsWithStr (s p : String) : Bool :=
  p.data.isPrefixOf s.data

/-- Byte/character truncation `s[n:]` on ASCII data (`strings.TrimPrefix`
after a successful prefix test). -/
def dropStr (s : String) (n : Nat) : String :=
  String.mk (s.data.drop n)

/-- `unwrapCloudCodeResponse` (server package): when the payload has a
nested `response` object, copy every top-level field except `response`,
then write every field of the nested object over the copy; otherwise
return the payload unchanged. -/
def unwrapCloudCodeResponse (cloudCodeResp : List (String × JVal)) :
    List (String × JVal) :=
  match lookupJ cloudCodeResp "response" with
  | some (.obj response) =>
      let geminiResp := cloudCodeResp.filter (fun kv => kv.1 ≠ "response")
      response.foldl (fun m kv => setKeyJ m kv.1 kv.2) geminiResp
  | _ => cloudCodeResp

/-- `TransformSSELine` (server package).  `json.Unmarshal` into
`map[string]interface\x7b\x7d` and `json.Marshal` are standard-library
calls, abstracted as `parse` (failure = `none`) and `serialize`;
`json.Marshal` cannot fail on a value tree produced by `json.Unmarshal`,
so the marshal-error early return is unreachable and not modelled. -/
def TransformSSELine (parse : String → Option (List (String × JVal)))
    (serialize : List (String × JVal) → String) (line : String) : String :=
  if !startsWithStr line "data: " then line
  else
    match parse (dropStr line 6) with
    | none => line
    | some cloudCodeResp =>
        "data: " ++ serialize (unwrapCloudCodeResponse cloudCodeResp)

/-- Updating a key then reading it back gives the new value. -/
theorem lookupJ_setKeyJ_same (m : List (String × JVal)) (k : String) (v : JVal) :
    lookupJ (setKeyJ m k v) k = some v := by
  induction m with
  | nil => simp [setKeyJ, lookupJ]
  | cons kv rest ih =>
      by_cases h : kv.1 = k
      · simp [setKeyJ, lookupJ, h]
      · simp [setKeyJ, lookupJ, h, ih]

/-- Updating one key leaves reads of other keys unchanged. -/
theorem lookupJ_setKeyJ_other (m : List (String × JVal)) (k0 k : String) (v : JVal)
    (h : k0 ≠ k) : lookupJ (setKeyJ m k0 v) k = lookupJ m k := by
  induction m with
  | nil => simp [setKeyJ, lookupJ, h]
  | cons kv rest ih =>
      by_cases h2 : kv.1 = k0
      · simp [setKeyJ, lookupJ, h2, h]
      · simp [setKeyJ, lookupJ, h2, ih]

/-- A key outside the key list reads as `none`. -/
theorem lookupJ_eq_none_of_not_mem (m : List (String × JVal)) (k : String)
    (h : k ∉ m.map Prod.fst) : lookupJ m k = none := by
  induction m with
  | nil => rfl
  | cons kv rest ih =>
      simp only [List.map_cons, List.mem_cons] at h
      push_neg at h
      have h1 : ¬ kv.1 = k := fun hh => h.1 hh.symm
      simp [lookupJ, h1, ih h.2]

/-- Reading through a fold of key updates: an updated key reads its (unique)
value from the update list, any other key falls through to the base map. -/
theorem lookupJ_foldl_setKeyJ (entries : List (String × JVal))
    (base : List (String × JVal)) (k : String)
    (hnd : (entries.map Prod.fst).Nodup) :
    lookupJ (entries.foldl (fun m kv => setKeyJ m kv.1 kv.2) base) k =
      match lookupJ entries k with
      | some v => some v
      | none => lookupJ base k := by
  induction entries generalizing base with
  | nil => simp [lookupJ]
  | cons kv rest ih =>
      simp only [List.map_cons, List.nodup_cons] at hnd
      rw [List.foldl_cons, ih _ hnd.2]
      by_cases h : kv.1 = k
      · have : lookupJ rest k = none := by
          apply lookupJ_eq_none_of_not_mem
          rw [← h]
          exact hnd.1
        simp [lookupJ, h, this, lookupJ_setKeyJ_same]
      · cases hr : lookupJ rest k with
        | none => simp [lookupJ, h, hr, lookupJ_setKeyJ_other _ _ _ _ h]
        | some v => simp [lookupJ, h, hr]

/-- Filtering out one key leaves reads of other keys unchanged. -/
theorem lookupJ_filter_ne (m : List (String × JVal)) (k0 k : String) (h : k ≠ k0) :
    lookupJ (m.filter (fun kv => kv.1 ≠ k0)) k = lookupJ m k := by
  induction m with
  | nil => rfl
  | cons kv rest ih =>
      simp only [ne_eq, decide_not] at ih ⊢
      rcases kv with ⟨k1, v1⟩
      by_cases h2 : k1 = k0
      · subst h2
        have h3 : ¬ k1 = k := fun hh => h hh.symm
        simp [List.filter_cons, lookupJ, h3, ih]
      · by_cases h4 : k1 = k
        · have h5 : ¬ k = k0 := fun hh => h hh
          simp [List.filter_cons, lookupJ, h2, h4, h5]
        · simp [List.filter_cons, lookupJ, h2, h4, ih]

/-- The filtered-out key reads as `none` in the filtered map. -/
theorem lookupJ_filter_self (m : List (String × JVal)) (k0 : String) :
    lookupJ (m.filter (fun kv => kv.1 ≠ k0)) k0 = none := by
  apply lookupJ_eq_none_of_not_mem
  intro hmem
  rcases List.mem_map.mp hmem with ⟨kv, hkv, hfst⟩
  have := List.of_mem_filter hkv
  simp only [decide_eq_true_eq] at this
  exact this hfst

/-- C5: `TransformSSELine` returns non-`data: ` lines and unparseable data
lines unchanged; a parseable data line becomes `data: ` plus the
serialization of the unwrapped payload; unwrapping a payload with a nested
`response` object keeps every top-level key except `response` and overlays
every nested key, nested keys winning — e.g. `\x7b"a":1,"response":
\x7b"a":2,"b":3\x7d\x7d` becomes `\x7b"a":2,"b":3\x7d`. -/
theorem C5_TransformSSELine_flattens_response
    (parse : String → Option (List (String × JVal)))
    (serialize : List (String × JVal) → String) :
    (∀ line : String, startsWithStr line "data: " = false →
      TransformSSELine parse serialize line = line) ∧
    (∀ line : String, startsWithStr line "data: " = true →
      parse (dropStr line 6) = none →
      TransformSSELine parse serialize line = line) ∧
    (∀ (line : String) (o : List (String × JVal)),
      startsWithStr line "data: " = true →
      parse (dropStr line 6) = some o →
      TransformSSELine parse serialize line =
        "data: " ++ serialize (unwrapCloudCodeResponse o)) ∧
    (∀ (o resp : List (String × JVal)) (k : String),
      lookupJ o "response" = some (.obj resp) →
      (resp.map Prod.fst).Nodup →
      lookupJ (unwrapCloudCodeResponse o) k =
        (match lookupJ resp k with
         | some v => some v
         | none => if k = "response" then none else lookupJ o k)) ∧
    unwrapCloudCodeResponse
        [("a", .num 1), ("response", .obj [("a", .num 2), ("b", .num 3)])] =
      [("a", .num 2), ("b", .num 3)] := by
  refine ⟨?_, ?_, ?_, ?_, by rfl⟩
  · intro line h
    simp [TransformSSELine, h]
  · intro line h hp
    simp [TransformSSELine, h, hp]
  · intro line o h hp
    simp [TransformSSELine, h, hp]
  · intro o resp k hresp hnd
    have hu : unwrapCloudCodeResponse o =
        resp.foldl (fun m kv => setKeyJ m kv.1 kv.2)
          (o.filter (fun kv => kv.1 ≠ "response")) := by
      simp [unwrapCloudCodeResponse, hresp]
    rw [hu, lookupJ_foldl_setKeyJ _ _ _ hnd]
    cases hr : lookupJ resp k with
    | some v => rfl
    | none =>
        by_cases hk : k = "response"
        · subst hk
          exact lookupJ_filter_self o "response"
        · rw [if_neg hk]
          exact lookupJ_filter_ne o "response" k hk

/-- Witness for C5: a non-data line and an unparseable data line pass
through; a parsed payload is unwrapped and re-serialized; the merged
object reads nested keys first. -/
theorem C5_TransformSSELine_flattens_response_witness :
    TransformSSELine (fun _ => none) (fun _ => "") "event: done" = "event: done" ∧
    TransformSSELine (fun _ => none) (fun _ => "") "data: nonsense" = "data: nonsense" ∧
    TransformSSELine
        (fun _ => some [("a", .num 1), ("response", .obj [("a", .num 2), ("b", .num 3)])])
        (fun _ => "S") "data: x" =
      "data: " ++ (fun _ => "S")
        (unwrapCloudCodeResponse
          [("a", .num 1), ("response", .obj [("a", .num 2), ("b", .num 3)])]) ∧
    lookupJ
        (unwrapCloudCodeResponse
          [("a", .num 1), ("response", .obj [("a", .num 2), ("b", .num 3)])]) "a" =
      (match lookupJ [("a", JVal.num 2), ("b", JVal.num 3)] "a" with
       | some v => some v
       | none =>
           if "a" = "response" then none
           else lookupJ [("a", JVal.num 1),
             ("response", JVal.obj [("a", JVal.num 2), ("b", JVal.num 3)])] "a") := by
  refine ⟨?_, ?_, ?_, ?_⟩
  · exact (C5_TransformSSELine_flattens_response (fun _ => none) (fun _ => "")).1
      "event: done" (by decide)
  · exact (C5_TransformSSELine_flattens_response (fun _ => none) (fun _ => "")).2.1
      "data: nonsense" (by decide) rfl
  · exact (C5_TransformSSELine_flattens_response
      (fun _ => some [("a", .num 1), ("response", .obj [("a", .num 2), ("b", .num 3)])])
      (fun _ => "S")).2.2.1 "data: x"
      [("a", .num 1), ("response", .obj [("a", .num 2), ("b", .num 3)])] (by decide) rfl
  · exact (C5_TransformSSELine_flattens_response (fun _ => none) (fun _ => "")).2.2.2.1
      [("a", .num 1), ("response", .obj [("a", .num 2), ("b", .num 3)])]
      [("a", .num 2), ("b", .num 3)] "a" rfl (by simp)

/-- C3: `ensureFunctionResponseIDs` scans parts in content order.  A
function call with a non-blank ID is pushed on the global FIFO queue and on
its name's FIFO queue.  A response that already carries an ID removes the
first matching entry from both queues.  An ID-less response is assigned the
head of its name's queue when that queue is non-empty (the ID leaves both
queues), else the head of the global queue (the ID leaves both queues).
On calls `[x/id 1, y/id 2]` followed by ID-less responses `[y, x]`, the
first response gets id 2 and the second id 1. -/
theorem C3_ensureFunctionResponseIDs_fifo_policy :
    (∀ (st : ReconcileState) (fc : FunctionCall) (text sig : String),
      trimStr fc.id ≠ "" →
      reconcileStep st ⟨text, sig, some fc, none⟩ =
        ({ st with
            pending := st.pending ++ [trimStr fc.id],
            perName :=
              if trimStr fc.name = "" then st.perName
              else setQ st.perName (trimStr fc.name)
                (getQ st.perName (trimStr fc.name) ++ [trimStr fc.id]) },
          ⟨text, sig, some fc, none⟩)) ∧
    (∀ (st : ReconcileState) (fr : FunctionResponse) (text sig : String),
      trimStr fr.id ≠ "" →
      reconcileStep st ⟨text, sig, none, some fr⟩ =
        ({ st with
            pending := removeFirstMatch st.pending fr.id,
            perName :=
              if trimStr fr.name = "" then st.perName
              else setQ st.perName (trimStr fr.name)
                (removeFirstMatch (getQ st.perName (trimStr fr.name)) fr.id) },
          ⟨text, sig, none, some fr⟩)) ∧
    (∀ (st : ReconcileState) (fr : FunctionResponse) (text sig id : String)
        (rest : List String),
      trimStr fr.id = "" → trimStr fr.name ≠ "" →
      getQ st.perName (trimStr fr.name) = id :: rest →
      reconcileStep st ⟨text, sig, none, some fr⟩ =
        ({ pending := removeFirstMatch st.pending id,
           perName := setQ st.perName (trimStr fr.name) rest,
           missing := st.missing + 1 },
          ⟨text, sig, none, some { fr with id := id }⟩)) ∧
    (∀ (st : ReconcileState) (fr : FunctionResponse) (text sig id : String)
        (rest : List String),
      trimStr fr.id = "" →
      (trimStr fr.name = "" ∨ getQ st.perName (trimStr fr.name) = []) →
      st.pending = id :: rest →
      reconcileStep st ⟨text, sig, none, some fr⟩ =
        ({ pending := rest,
           perName :=
             if trimStr fr.name = "" then st.perName
             else setQ st.perName (trimStr fr.name)
               (removeFirstMatch (getQ st.perName (trimStr fr.name)) id),
           missing := st.missing + 1 },
          ⟨text, sig, none, some { fr with id := id }⟩)) ∧
    ensureFunctionResponseIDs
        [⟨"model", [⟨"", "", some ⟨"1", "x", []⟩, none⟩,
                    ⟨"", "", some ⟨"2", "y", []⟩, none⟩]⟩,
         ⟨"user", [⟨"", "", none, some ⟨"", "y", []⟩⟩,
                   ⟨"", "", none, some ⟨"", "x", []⟩⟩]⟩] =
      ([⟨"model", [⟨"", "", some ⟨"1", "x", []⟩, none⟩,
                   ⟨"", "", some ⟨"2", "y", []⟩, none⟩]⟩,
        ⟨"user", [⟨"", "", none, some ⟨"2", "y", []⟩⟩,
                  ⟨"", "", none, some ⟨"1", "x", []⟩⟩]⟩], 2) := by
  refine ⟨?_, ?_, ?_, ?_, by rfl⟩
  · intro st fc text sig h
    simp [reconcileStep, h]
  · intro st fr text sig h
    simp [reconcileStep, h]
  · intro st fr text sig id rest hid hname hq
    simp [reconcileStep, hid, assignFromName, hname, hq]
  · intro st fr text sig id rest hid hq hp
    rcases hq with hname | hq
    · simp [reconcileStep, hid, assignFromName, hname, assignFromPending, hp]
    · by_cases hname : trimStr fr.name = ""
      · simp [reconcileStep, hid, assignFromName, hname, assignFromPending, hp]
      · simp [reconcileStep, hid, assignFromName, hname, hq, assignFromPending, hp]

/-- Witness for C3 at concrete queues: a call enqueues its ID, a response
with an ID consumes it, an ID-less named response takes its name-queue
head, and an ID-less anonymous response takes the global head. -/
theorem C3_ensureFunctionResponseIDs_fifo_policy_witness :
    reconcileStep ⟨[], [], 0⟩ ⟨"", "", some ⟨"9", "z", []⟩, none⟩ =
      (⟨["9"], [("z", ["9"])], 0⟩, ⟨"", "", some ⟨"9", "z", []⟩, none⟩) ∧
    reconcileStep ⟨["1"], [("x", ["1"])], 0⟩ ⟨"", "", none, some ⟨"1", "x", []⟩⟩ =
      (⟨[], [("x", [])], 0⟩, ⟨"", "", none, some ⟨"1", "x", []⟩⟩) ∧
    reconcileStep ⟨["1"], [("x", ["1"])], 0⟩ ⟨"", "", none, some ⟨"", "x", []⟩⟩ =
      (⟨[], [("x", [])], 1⟩, ⟨"", "", none, some ⟨"1", "x", []⟩⟩) ∧
    reconcileStep ⟨["2"], [], 0⟩ ⟨"", "", none, some ⟨"", "", []⟩⟩ =
      (⟨[], [], 1⟩, ⟨"", "", none, some ⟨"2", "", []⟩⟩) := by
  refine ⟨?_, ?_, ?_, ?_⟩
  · simpa using C3_ensureFunctionResponseIDs_fifo_policy.1
      ⟨[], [], 0⟩ ⟨"9", "z", []⟩ "" "" (by decide)
  · simpa using C3_ensureFunctionResponseIDs_fifo_policy.2.1
      ⟨["1"], [("x", ["1"])], 0⟩ ⟨"1", "x", []⟩ "" "" (by decide)
  · simpa using C3_ensureFunctionResponseIDs_fifo_policy.2.2.1
      ⟨["1"], [("x", ["1"])], 0⟩ ⟨"", "x", []⟩ "" "" "1" [] (by decide) (by decide)
      (by decide)
  · simpa using C3_ensureFunctionResponseIDs_fifo_policy.2.2.2.1
      ⟨["2"], [], 0⟩ ⟨"", "", []⟩ "" "" "2" [] (by decide) (Or.inl (by decide))
      (by decide)

/-- C6: session-id derivation is deterministic: two content lists whose
first user-role entry with non-empty text parts joins (with newline) to the
same text get the same session id, namely the first 32 hex characters of
the SHA-256 digest of that text; the id has 32 characters whenever the
digest has the 32 bytes SHA-256 produces. -/
theorem C6_deriveSessionID_deterministic
    (sha : String → List Nat) (c1 c2 : List Content) (t : String)
    (h1 : firstUserJoinedText c1 = some t)
    (h2 : firstUserJoinedText c2 = some t) :
    deriveSessionID sha c1 = deriveSessionID sha c2 ∧
    deriveSessionID sha c1 = some (String.mk ((hexChars (sha t)).take 32)) ∧
    ((sha t).length = 32 →
      ∀ s : String, deriveSessionID sha c1 = some s → s.length = 32) := by
  have e1 := deriveSessionID_eq_map sha c1
  have e2 := deriveSessionID_eq_map sha c2
  rw [h1] at e1
  rw [h2] at e2
  refine ⟨by rw [e1, e2], by rw [e1]; rfl, ?_⟩
  intro hlen s hs
  have hv : deriveSessionID sha c1 = some (String.mk ((hexChars (sha t)).take 32)) := by
    rw [e1]; rfl
  rw [hv] at hs
  have hs' : String.mk ((hexChars (sha t)).take 32) = s := Option.some.inj hs
  rw [← hs']
  show ((hexChars (sha t)).take 32).length = 32
  rw [List.length_take, hexChars_length, hlen]
  decide

/-- Witness for C6 at concrete inputs: the lists `[user "hi"]` and
`[model "x", user "hi"]` share the joined text `"hi"` and get equal ids. -/
theorem C6_deriveSessionID_deterministic_witness :
    deriveSessionID (fun _ => List.replicate 32 0)
        [⟨"user", [⟨"hi", "", none, none⟩]⟩] =
      deriveSessionID (fun _ => List.replicate 32 0)
        [⟨"model", [⟨"x", "", none, none⟩]⟩, ⟨"user", [⟨"hi", "", none, none⟩]⟩] ∧
    deriveSessionID (fun _ => List.replicate 32 0)
        [⟨"user", [⟨"hi", "", none, none⟩]⟩] =
      some (String.mk ((hexChars ((fun (_ : String) => List.replicate 32 0) "hi")).take 32)) ∧
    (((fun (_ : String) => List.replicate 32 0) "hi").length = 32 →
      ∀ s : String,
        deriveSessionID (fun _ => List.replicate 32 0)
          [⟨"user", [⟨"hi", "", none, none⟩]⟩] = some s → s.length = 32) :=
  C6_deriveSessionID_deterministic (fun _ => List.replicate 32 0)
    [⟨"user", [⟨"hi", "", none, none⟩]⟩]
    [⟨"model", [⟨"x", "", none, none⟩]⟩, ⟨"user", [⟨"hi", "", none, none⟩]⟩]
    "hi" (by decide) (by decide)

/-- C7: sanitization removes exactly the parts with empty text and no
function-call/response payload, then the contents left with no parts; order
of survivors is preserved (the cleaned list is a filter of a map).  A
content whose single part is a blank-text non-function part is removed
entirely; a content whose only part is a blank-text `functionCall` part is
retained. -/
theorem C7_sanitizeContents_removes_exactly_empty :
    (∀ part : ContentPart, isEmptyContentPart part = true ↔
        (part.text = "" ∧ part.functionCall = none ∧ part.functionResponse = none)) ∧
    (∀ contents : List Content,
      (sanitizeContents contents).1 =
        (contents.map
          (fun c =>
            { c with parts := c.parts.filter (fun p => !isEmptyContentPart p) })).filter
          (fun c => !c.parts.isEmpty)) ∧
    (sanitizeContents [⟨"user", [⟨"", "", none, none⟩]⟩]).1 = [] ∧
    (∀ fc : FunctionCall,
      (sanitizeContents [⟨"model", [⟨"", "", some fc, none⟩]⟩]).1 =
        [⟨"model", [⟨"", "", some fc, none⟩]⟩]) := by
  refine ⟨?_, sanitizeContents_eq_filter, by rfl, ?_⟩
  · intro part
    rcases part with ⟨t, sig, fc, fr⟩
    cases fc <;> cases fr <;> simp [isEmptyContentPart]
  · intro fc
    rfl

/-- C10: a part carrying only a `thoughtSignature` (blank text, no function
call, no function response) is classified empty by `isEmptyContentPart` and
pruned by `sanitizeContents` during request preparation, even when the
signature is non-empty; the surrounding non-empty parts survive. -/
theorem C10_thoughtSignature_only_part_is_pruned :
    (∀ sig : String, isEmptyContentPart ⟨"", sig, none, none⟩ = true) ∧
    (∀ sig role : String,
      sanitizeContents [⟨role, [⟨"", sig, none, none⟩]⟩] = ([], 1, 1)) ∧
    (∀ sig role : String,
      (sanitizeContents
        [⟨role, [⟨"hello", "", none, none⟩, ⟨"", sig, none, none⟩]⟩]).1 =
        [⟨role, [⟨"hello", "", none, none⟩]⟩]) := by
  refine ⟨fun sig => rfl, fun sig role => rfl, fun sig role => rfl⟩

/-! ## SchemaConverter (`ConvertSchema`, unnamed part 005) -/

/-- `GeminiParameterSchema` (thinking.go), fields in declaration order;
`properties` (a Go map filled by iterating the input object) is modelled in
input order. -/
inductive GSchema where
  | mk (type : String) (description : String)
      (properties : List (String × GSchema)) (items : Option GSchema)
      (required : List String) (enum : List String)
  deriving Repr

/-- The `Type` field. -/
def GSchema.type : GSchema → String
  | .mk t _ _ _ _ _ => t

/-- The `Description` field. -/
def GSchema.description : GSchema → String
  | .mk _ d _ _ _ _ => d

/-- The `Properties` field. -/
def GSchema.properties : GSchema → List (String × GSchema)
  | .mk _ _ p _ _ _ => p

/-- The `Items` field. -/
def GSchema.items : GSchema → Option GSchema
  | .mk _ _ _ i _ _ => i

/-- The `Required` field. -/
def GSchema.required : GSchema → List String
  | .mk _ _ _ _ r _ => r

/-- The `Enum` field. -/
def GSchema.enumVals : GSchema → List String
  | .mk _ _ _ _ _ e => e

/-- `strings.ToUpper`, restricted to ASCII. -/
def upperAscii (s : String) : String :=
  String.mk (s.data.map (fun c =>
    if 97 ≤ c.toNat ∧ c.toNat ≤ 122 then Char.ofNat (c.toNat - 32) else c))

/-- The `anyOf`/`oneOf` sub-schema list when one is present as a JSON
array, `anyOf` checked first (ConvertSchema lines 13-18). -/
def subSchemasOf (input : List (String × JVal)) : Option (List JVal) :=
  match asArr (lookupJ input "anyOf") with
  | some xs => some xs
  | none => asArr (lookupJ input "oneOf")

/-- The first sub-schema that is a map with `type == "array"` (the scan of
ConvertSchema lines 21-32); the Go `==` on `interface\x7b\x7d` values is
true exactly when the value is the string `"array"`. -/
def findArrayBranch : List JVal → Option (List (String × JVal))
  | [] => none
  | .obj fs :: rest =>
      match lookupJ fs "type" with
      | some (.str t) => if t = "array" then some fs else findArrayBranch rest
      | _ => findArrayBranch rest
  | _ :: rest => findArrayBranch rest

/-- The in-place write `subSchemaMap["description"] = parentDesc` performed
when the parent has a string description (ConvertSchema lines 26-28):
note it runs whether or not the branch already has a description. -/
def withParentDesc (input sub : List (String × JVal)) : List (String × JVal) :=
  match asStr (lookupJ input "description") with
  | some d => setKeyJ sub "description" (.str d)
  | none => sub

/-- A found value is structurally smaller than the map holding it. -/
theorem sizeOf_lookupJ {fs : List (String × JVal)} {k : String} {v : JVal}
    (h : lookupJ fs k = some v) : sizeOf v + sizeOf k + 2 ≤ sizeOf fs := by
  induction fs with
  | nil => simp [lookupJ] at h
  | cons kv rest ih =>
      rcases kv with ⟨k1, v1⟩
      by_cases h1 : k1 = k
      · subst h1
        simp [lookupJ] at h
        subst h
        simp only [List.cons.sizeOf_spec, Prod.mk.sizeOf_spec]
        omega
      · simp [lookupJ, h1] at h
        have := ih h
        simp only [List.cons.sizeOf_spec, Prod.mk.sizeOf_spec]
        omega

/-- Two values found under distinct keys leave slack for both. -/
theorem sizeOf_lookupJ_two {fs : List (String × JVal)} {k1 k2 : String}
    {v1 v2 : JVal} (h1 : lookupJ fs k1 = some v1) (h2 : lookupJ fs k2 = some v2)
    (hne : k1 ≠ k2) : sizeOf v1 + sizeOf v2 + sizeOf k2 + 4 ≤ sizeOf fs := by
  induction fs with
  | nil => simp [lookupJ] at h1
  | cons kv rest ih =>
      rcases kv with ⟨k0, v0⟩
      by_cases hk1 : k0 = k1
      · subst hk1
        simp [lookupJ] at h1
        subst h1
        have hk2 : ¬ k0 = k2 := hne
        simp [lookupJ, hk2] at h2
        have := sizeOf_lookupJ h2
        simp only [List.cons.sizeOf_spec, Prod.mk.sizeOf_spec]
        omega
      · simp [lookupJ, hk1] at h1
        by_cases hk2 : k0 = k2
        · subst hk2
          simp [lookupJ] at h2
          subst h2
          have := sizeOf_lookupJ h1
          simp only [List.cons.sizeOf_spec, Prod.mk.sizeOf_spec]
          omega
        · simp [lookupJ, hk2] at h2
          have := ih h1 h2
          simp only [List.cons.sizeOf_spec, Prod.mk.sizeOf_spec]
          omega

/-- `setKeyJ` grows a map by at most the inserted pair. -/
theorem sizeOf_setKeyJ (m : List (String × JVal)) (k : String) (v : JVal) :
    sizeOf (setKeyJ m k v) ≤ sizeOf m + 2 + sizeOf k + sizeOf v := by
  induction m with
  | nil =>
      simp only [setKeyJ, List.cons.sizeOf_spec, Prod.mk.sizeOf_spec,
        List.nil.sizeOf_spec]
      omega
  | cons kv rest ih =>
      rcases kv with ⟨k0, v0⟩
      by_cases h : k0 = k
      · subst h
        simp [setKeyJ]
        omega
      · simp only [setKeyJ, if_neg h, List.cons.sizeOf_spec, Prod.mk.sizeOf_spec]
        omega

/-- The branch `findArrayBranch` returns is a member of the scanned list. -/
theorem findArrayBranch_mem {xs : List JVal} {sub : List (String × JVal)}
    (h : findArrayBranch xs = some sub) : JVal.obj sub ∈ xs := by
  induction xs with
  | nil => simp [findArrayBranch] at h
  | cons x rest ih =>
      cases x with
      | obj fs =>
          simp only [findArrayBranch] at h
          split at h
          · split at h
            · cases h
              exact List.mem_cons_self _ _
            · exact List.mem_cons_of_mem _ (ih h)
          · exact List.mem_cons_of_mem _ (ih h)
      | str s =>
          simp only [findArrayBranch] at h
          exact List.mem_cons_of_mem _ (ih h)
      | num n =>
          simp only [findArrayBranch] at h
          exact List.mem_cons_of_mem _ (ih h)
      | bool b =>
          simp only [findArrayBranch] at h
          exact List.mem_cons_of_mem _ (ih h)
      | null =>
          simp only [findArrayBranch] at h
          exact List.mem_cons_of_mem _ (ih h)
      | arr ys =>
          simp only [findArrayBranch] at h
          exact List.mem_cons_of_mem _ (ih h)

/-- Inversion for the `.([]interface\x7b\x7d)` assertion. -/
theorem asArr_inv {o : Option JVal} {xs : List JVal} (h : asArr o = some xs) :
    o = some (.arr xs) := by
  cases o with
  | none => simp [asArr] at h
  | some v =>
      cases v with
      | arr ys => simp [asArr] at h; subst h; rfl
      | str s => simp [asArr] at h
      | num n => simp [asArr] at h
      | bool b => simp [asArr] at h
      | null => simp [asArr] at h
      | obj fs => simp [asArr] at h

/-- Inversion for the `.(map[string]interface\x7b\x7d)` assertion. -/
theorem asObj_inv {o : Option JVal} {fs : List (String × JVal)}
    (h : asObj o = some fs) : o = some (.obj fs) := by
  cases o with
  | none => simp [asObj] at h
  | some v =>
      cases v with
      | obj gs => simp [asObj] at h; subst h; rfl
      | str s => simp [asObj] at h
      | num n => simp [asObj] at h
      | bool b => simp [asObj] at h
      | null => simp [asObj] at h
      | arr ys => simp [asObj] at h

/-- Inversion for the `.(string)` assertion. -/
theorem asStr_inv {o : Option JVal} {s : String} (h : asStr o = some s) :
    o = some (.str s) := by
  cases o with
  | none => simp [asStr] at h
  | some v =>
      cases v with
      | str t => simp [asStr] at h; subst h; rfl
      | obj gs => simp [asStr] at h
      | num n => simp [asStr] at h
      | bool b => simp [asStr] at h
      | null => simp [asStr] at h
      | arr ys => simp [asStr] at h

/-- A present sub-schema list comes from `anyOf` or from `oneOf`. -/
theorem subSchemasOf_inv {input : List (String × JVal)} {xs : List JVal}
    (h : subSchemasOf input = some xs) :
    lookupJ input "anyOf" = some (.arr xs) ∨
      lookupJ input "oneOf" = some (.arr xs) := by
  unfold subSchemasOf at h
  cases ha : asArr (lookupJ input "anyOf") with
  | some ys =>
      rw [ha] at h
      simp at h
      subst h
      exact Or.inl (asArr_inv ha)
  | none =>
      rw [ha] at h
      simp at h
      exact Or.inr (asArr_inv h)

/-- The chosen (and possibly description-overwritten) array branch is
smaller than the whole input map, justifying the recursion of
`ConvertSchema` through `anyOf`/`oneOf`. -/
theorem sizeOf_withParentDesc_lt {input : List (String × JVal)} {xs : List JVal}
    {sub : List (String × JVal)} (hs : subSchemasOf input = some xs)
    (hb : findArrayBranch xs = some sub) :
    sizeOf (withParentDesc input sub) < sizeOf input := by
  have hmem := findArrayBranch_mem hb
  have hlt : sizeOf (JVal.obj sub) < sizeOf xs := List.sizeOf_lt_of_mem hmem
  simp only [JVal.obj.sizeOf_spec] at hlt
  have harr : sizeOf (JVal.arr xs) = 1 + sizeOf xs := by
    simp [JVal.arr.sizeOf_spec]
  unfold withParentDesc
  cases hd : asStr (lookupJ input "description") with
  | none =>
      show sizeOf sub < sizeOf input
      rcases subSchemasOf_inv hs with hk | hk
      · have := sizeOf_lookupJ hk
        omega
      · have := sizeOf_lookupJ hk
        omega
  | some d =>
      show sizeOf (setKeyJ sub "description" (.str d)) < sizeOf input
      have hdesc := asStr_inv hd
      have hset := sizeOf_setKeyJ sub "description" (.str d)
      have hstr : sizeOf (JVal.str d) = 1 + sizeOf d := by
        simp [JVal.str.sizeOf_spec]
      rcases subSchemasOf_inv hs with hk | hk
      · have h2 := sizeOf_lookupJ_two hk hdesc (by decide)
        omega
      · have h2 := sizeOf_lookupJ_two hk hdesc (by decide)
        omega

/-- The array branch the `anyOf`/`oneOf` scan selects, when there is one. -/
def arrayBranchOf (input : List (String × JVal)) : Option (List (String × JVal)) :=
  (subSchemasOf input).bind findArrayBranch

/-- A selected array branch (after the parent-description overwrite) is
smaller than the input map. -/
theorem sizeOf_arrayBranchOf_lt {input sub : List (String × JVal)}
    (h : arrayBranchOf input = some sub) :
    sizeOf (withParentDesc input sub) < sizeOf input := by
  unfold arrayBranchOf at h
  cases hs : subSchemasOf input with
  | none => rw [hs] at h; cases h
  | some xs =>
      rw [hs] at h
      exact sizeOf_withParentDesc_lt hs h

mutual

/-- `ConvertSchema` (unnamed part 005): recursively convert a JSON-schema
map to `GSchema`.  If an `anyOf`/`oneOf` list is present and contains a
sub-map with `type == "array"`, overwrite that branch's description with
the parent's (when the parent has a string description) and recurse on the
branch; otherwise map the supported fields of the input itself: `type`
upper-cased, `description`, map-valued `properties` entries and a
map-valued `items` recursively, and the string entries of `required` and
`enum`. -/
def ConvertSchema (input : List (String × JVal)) : GSchema :=
  match hb : arrayBranchOf input with
  | some sub => ConvertSchema (withParentDesc input sub)
  | none =>
      .mk
        (match asStr (lookupJ input "type") with
         | some t => upperAscii t
         | none => "")
        ((asStr (lookupJ input "description")).getD "")
        (match hp : asObj (lookupJ input "properties") with
         | some p => convertProps p
         | none => [])
        (match hi : asObj (lookupJ input "items") with
         | some i => some (ConvertSchema i)
         | none => none)
        (match asArr (lookupJ input "required") with
         | some r => r.filterMap (fun v => asStr (some v))
         | none => [])
        (match asArr (lookupJ input "enum") with
         | some e => e.filterMap (fun v => asStr (some v))
         | none => [])
  termination_by sizeOf input
  decreasing_by
    · exact sizeOf_arrayBranchOf_lt hb
    · have := sizeOf_lookupJ (asObj_inv hp)
      simp only [JVal.obj.sizeOf_spec] at this
      omega
    · have := sizeOf_lookupJ (asObj_inv hi)
      simp only [JVal.obj.sizeOf_spec] at this
      omega

/-- Conversion of the map-valued entries of a `properties` object, in
input order (the loop of lines 59-66 of ConvertSchema). -/
def convertProps (props : List (String × JVal)) : List (String × GSchema) :=
  match props with
  | [] => []
  | (k, v) :: rest =>
      match v with
      | .obj vfs => (k, ConvertSchema vfs) :: convertProps rest
      | _ => convertProps rest
  termination_by sizeOf props
  decreasing_by
    · simp only [List.cons.sizeOf_spec, Prod.mk.sizeOf_spec, JVal.obj.sizeOf_spec]
      omega
    · simp only [List.cons.sizeOf_spec, Prod.mk.sizeOf_spec]
      omega
    · simp only [List.cons.sizeOf_spec, Prod.mk.sizeOf_spec]
      omega

end

/-- Taking the array branch: `ConvertSchema` recurses on the chosen
(description-overwritten) sub-schema. -/
theorem ConvertSchema_arrayBranch {input sub : List (String × JVal)}
    (h : arrayBranchOf input = some sub) :
    ConvertSchema input = ConvertSchema (withParentDesc input sub) := by
  rw [ConvertSchema.eq_def]
  split
  · rename_i sub2 heq
    rw [h] at heq
    cases heq
    rfl
  · rename_i heq
    rw [h] at heq
    cases heq

/-- The `Type` computed by the plain field-mapping path. -/
def typeOfJ (input : List (String × JVal)) : String :=
  match asStr (lookupJ input "type") with
  | some t => upperAscii t
  | none => ""

/-- The `Description` computed by the plain field-mapping path. -/
def descOfJ (input : List (String × JVal)) : String :=
  (asStr (lookupJ input "description")).getD ""

/-- The `Properties` computed by the plain field-mapping path. -/
def propsOfJ (input : List (String × JVal)) : List (String × GSchema) :=
  match asObj (lookupJ input "properties") with
  | some p => convertProps p
  | none => []

/-- The `Items` computed by the plain field-mapping path. -/
def itemsOfJ (input : List (String × JVal)) : Option GSchema :=
  match asObj (lookupJ input "items") with
  | some i => some (ConvertSchema i)
  | none => none

/-- The `Required` computed by the plain field-mapping path. -/
def reqOfJ (input : List (String × JVal)) : List String :=
  match asArr (lookupJ input "required") with
  | some r => r.filterMap (fun v => asStr (some v))
  | none => []

/-- The `Enum` computed by the plain field-mapping path. -/
def enumOfJ (input : List (String × JVal)) : List String :=
  match asArr (lookupJ input "enum") with
  | some e => e.filterMap (fun v => asStr (some v))
  | none => []

/-- When no array branch is selected, `ConvertSchema` maps the fields of
the input itself. -/
theorem ConvertSchema_base {input : List (String × JVal)}
    (h : arrayBranchOf input = none) :
    ConvertSchema input =
      .mk (typeOfJ input) (descOfJ input) (propsOfJ input) (itemsOfJ input)
        (reqOfJ input) (enumOfJ input) := by
  rw [ConvertSchema.eq_def]
  split
  · rename_i sub2 heq
    rw [h] at heq
    cases heq
  · congr 1
    · unfold propsOfJ
      split <;> rename_i hp2 <;> rw [hp2]
    · unfold itemsOfJ
      split <;> rename_i hi2 <;> rw [hi2]

/-- Reading through a key-predicate filter: kept keys read as before,
dropped keys read as `none`. -/
theorem lookupJ_filter_pred (p : String → Bool) (m : List (String × JVal))
    (k : String) :
    lookupJ (m.filter (fun kv => p kv.1)) k =
      if p k then lookupJ m k else none := by
  induction m with
  | nil => simp [lookupJ]
  | cons kv rest ih =>
      rcases kv with ⟨k1, v1⟩
      by_cases h1 : k1 = k
      · subst h1
        by_cases hp : p k1
        · simp [List.filter_cons, hp, lookupJ, ih]
        · simp [List.filter_cons, hp, lookupJ, ih]
      · by_cases hp : p k1
        · simp [List.filter_cons, hp, lookupJ, h1, ih]
        · simp [List.filter_cons, hp, lookupJ, h1, ih]

/-- The scan finds the array-typed branch wherever it sits, as long as no
earlier map in the list is array-typed. -/
theorem findArrayBranch_position (xs1 : List JVal) (fs : List (String × JVal))
    (xs2 : List JVal) (hfs : lookupJ fs "type" = some (.str "array"))
    (hnone : ∀ gs, JVal.obj gs ∈ xs1 → ¬ lookupJ gs "type" = some (.str "array")) :
    findArrayBranch (xs1 ++ JVal.obj fs :: xs2) = some fs := by
  induction xs1 with
  | nil => simp [findArrayBranch, hfs]
  | cons x rest ih =>
      have ih2 := ih (fun gs hgs => hnone gs (List.mem_cons_of_mem _ hgs))
      cases x with
      | obj gs =>
          have hne := hnone gs (List.mem_cons_self _ _)
          simp only [List.cons_append, findArrayBranch]
          cases hl : lookupJ gs "type" with
          | none => exact ih2
          | some v =>
              cases v with
              | str t =>
                  have htne : ¬ t = "array" := by
                    intro hcontra
                    subst hcontra
                    exact hne hl
                  simpa [htne] using ih2
              | num n => exact ih2
              | bool b => exact ih2
              | null => exact ih2
              | arr ys => exact ih2
              | obj hs2 => exact ih2
      | str s => simpa [findArrayBranch] using ih2
      | num n => simpa [findArrayBranch] using ih2
      | bool b => simpa [findArrayBranch] using ih2
      | null => simpa [findArrayBranch] using ih2
      | arr ys => simpa [findArrayBranch] using ih2

/-- C1 as stated is false: on `\x7b"anyOf":[\x7b"type":"string"\x7d]\x7d` the
converter does not recurse into the first sub-schema (which would produce
type `"STRING"`); it falls through and converts the parent map, whose own
fields are empty. -/
theorem C1_counterexample_first_branch_not_selected :
    ConvertSchema [("anyOf", .arr [.obj [("type", .str "string")]])] =
      .mk "" "" [] none [] [] ∧
    ConvertSchema [("type", .str "string")] = .mk "STRING" "" [] none [] [] ∧
    ConvertSchema [("anyOf", .arr [.obj [("type", .str "string")]])] ≠
      ConvertSchema [("type", .str "string")] := by
  have hA : ConvertSchema [("anyOf", .arr [.obj [("type", .str "string")]])] =
      .mk "" "" [] none [] [] := by
    rw [ConvertSchema_base (by rfl)]
    rfl
  have hB : ConvertSchema [("type", .str "string")] =
      .mk "STRING" "" [] none [] [] := by
    rw [ConvertSchema_base (by rfl)]
    rfl
  refine ⟨hA, hB, ?_⟩
  rw [hA, hB]
  intro h
  injection h with h1 h2 h3 h4 h5 h6
  exact absurd h1 (by decide)

/-- C1 amended: when the `anyOf`/`oneOf` list contains no array-typed
sub-schema, the list is ignored entirely — the result is the plain field
mapping of the parent map itself, and equals the conversion of the parent
with the `anyOf`/`oneOf` keys removed; no sub-schema is selected. -/
theorem C1_no_array_branch_converts_parent
    (input : List (String × JVal)) (xs : List JVal)
    (hs : subSchemasOf input = some xs) (hb : findArrayBranch xs = none) :
    ConvertSchema input =
      .mk (typeOfJ input) (descOfJ input) (propsOfJ input) (itemsOfJ input)
        (reqOfJ input) (enumOfJ input) ∧
    ConvertSchema input =
      ConvertSchema (input.filter (fun kv =>
        !(kv.1 == "anyOf") && !(kv.1 == "oneOf"))) := by
  have hzero : arrayBranchOf input = none := by
    unfold arrayBranchOf
    rw [hs]
    exact hb
  have hfilters : ∀ k : String, (!(k == "anyOf") && !(k == "oneOf")) = true →
      lookupJ (input.filter (fun kv => !(kv.1 == "anyOf") && !(kv.1 == "oneOf"))) k =
        lookupJ input k := by
    intro k hk
    rw [lookupJ_filter_pred (fun s => !(s == "anyOf") && !(s == "oneOf")) input k,
      if_pos hk]
  have hanyOf : lookupJ
      (input.filter (fun kv => !(kv.1 == "anyOf") && !(kv.1 == "oneOf"))) "anyOf" =
      none := by
    rw [lookupJ_filter_pred (fun s => !(s == "anyOf") && !(s == "oneOf")) input "anyOf"]
    rfl
  have honeOf : lookupJ
      (input.filter (fun kv => !(kv.1 == "anyOf") && !(kv.1 == "oneOf"))) "oneOf" =
      none := by
    rw [lookupJ_filter_pred (fun s => !(s == "anyOf") && !(s == "oneOf")) input "oneOf"]
    rfl
  have hsub2 : subSchemasOf
      (input.filter (fun kv => !(kv.1 == "anyOf") && !(kv.1 == "oneOf"))) = none := by
    unfold subSchemasOf
    rw [hanyOf, honeOf]
    rfl
  have h2 : arrayBranchOf
      (input.filter (fun kv => !(kv.1 == "anyOf") && !(kv.1 == "oneOf"))) = none := by
    unfold arrayBranchOf
    rw [hsub2]
    rfl
  refine ⟨ConvertSchema_base hzero, ?_⟩
  rw [ConvertSchema_base hzero, ConvertSchema_base h2]
  congr 1
  · unfold typeOfJ
    rw [hfilters "type" (by decide)]
  · unfold descOfJ
    rw [hfilters "description" (by decide)]
  · unfold propsOfJ
    rw [hfilters "properties" (by decide)]
  · unfold itemsOfJ
    rw [hfilters "items" (by decide)]
  · unfold reqOfJ
    rw [hfilters "required" (by decide)]
  · unfold enumOfJ
    rw [hfilters "enum" (by decide)]

/-- Witness for C1 at the concrete input
`\x7b"anyOf":[\x7b"type":"string"\x7d],"description":"d"\x7d`. -/
theorem C1_no_array_branch_converts_parent_witness :
    ConvertSchema [("anyOf", .arr [.obj [("type", .str "string")]]),
        ("description", .str "d")] =
      .mk (typeOfJ [("anyOf", .arr [.obj [("type", .str "string")]]),
            ("description", .str "d")])
        (descOfJ [("anyOf", .arr [.obj [("type", .str "string")]]),
            ("description", .str "d")])
        (propsOfJ [("anyOf", .arr [.obj [("type", .str "string")]]),
            ("description", .str "d")])
        (itemsOfJ [("anyOf", .arr [.obj [("type", .str "string")]]),
            ("description", .str "d")])
        (reqOfJ [("anyOf", .arr [.obj [("type", .str "string")]]),
            ("description", .str "d")])
        (enumOfJ [("anyOf", .arr [.obj [("type", .str "string")]]),
            ("description", .str "d")]) ∧
    ConvertSchema [("anyOf", .arr [.obj [("type", .str "string")]]),
        ("description", .str "d")] =
      ConvertSchema
        ([("anyOf", .arr [.obj [("type", .str "string")]]),
          ("description", .str "d")].filter (fun kv =>
            !(kv.1 == "anyOf") && !(kv.1 == "oneOf"))) :=
  C1_no_array_branch_converts_parent
    [("anyOf", .arr [.obj [("type", .str "string")]]), ("description", .str "d")]
    [.obj [("type", .str "string")]] (by rfl) (by rfl)

/-- C2 as stated is false: on `\x7b"description":"P","anyOf":
[\x7b"type":"array","description":"B"\x7d]\x7d` the parent description `"P"`
overwrites the branch's own `"B"` (the code writes the parent description
unconditionally), so the result's description is `"P"`, not `"B"`. -/
theorem C2_counterexample_parent_description_overwrites_branch :
    ConvertSchema [("description", .str "P"),
        ("anyOf", .arr [.obj [("type", .str "array"), ("description", .str "B")]])] =
      .mk "ARRAY" "P" [] none [] [] ∧
    GSchema.description (ConvertSchema [("description", .str "P"),
        ("anyOf", .arr [.obj [("type", .str "array"),
          ("description", .str "B")]])]) ≠ "B" := by
  have hA : ConvertSchema [("description", .str "P"),
      ("anyOf", .arr [.obj [("type", .str "array"), ("description", .str "B")]])] =
      .mk "ARRAY" "P" [] none [] [] := by
    rw [ConvertSchema_arrayBranch
      (show arrayBranchOf [("description", .str "P"),
          ("anyOf", .arr [.obj [("type", .str "array"), ("description", .str "B")]])] =
        some [("type", .str "array"), ("description", .str "B")] from rfl)]
    show ConvertSchema [("type", .str "array"), ("description", .str "P")] = _
    rw [ConvertSchema_base (by rfl)]
    rfl
  refine ⟨hA, ?_⟩
  rw [hA]
  decide

/-- C2 amended: an array-typed sub-schema is selected wherever it sits in
the `anyOf`/`oneOf` list and the converter recurses on it, but the
parent's description (when present) always overwrites the branch's
description — the branch keeps its own description only when the parent
has none. -/
theorem C2_array_branch_selected_parent_desc_wins
    (input : List (String × JVal)) (xs : List JVal) (sub : List (String × JVal))
    (hs : subSchemasOf input = some xs) (hb : findArrayBranch xs = some sub) :
    ConvertSchema input = ConvertSchema (withParentDesc input sub) ∧
    (∀ d : String, asStr (lookupJ input "description") = some d →
      lookupJ (withParentDesc input sub) "description" = some (.str d)) ∧
    (asStr (lookupJ input "description") = none →
      withParentDesc input sub = sub) ∧
    (∀ (xs1 : List JVal) (fs : List (String × JVal)) (xs2 : List JVal),
      xs = xs1 ++ JVal.obj fs :: xs2 →
      lookupJ fs "type" = some (.str "array") →
      (∀ gs, JVal.obj gs ∈ xs1 → ¬ lookupJ gs "type" = some (.str "array")) →
      sub = fs) := by
  have hzero : arrayBranchOf input = some sub := by
    unfold arrayBranchOf
    rw [hs]
    exact hb
  refine ⟨ConvertSchema_arrayBranch hzero, ?_, ?_, ?_⟩
  · intro d hd
    unfold withParentDesc
    rw [hd]
    exact lookupJ_setKeyJ_same sub "description" (.str d)
  · intro hd
    unfold withParentDesc
    rw [hd]
  · intro xs1 fs xs2 hxs hfs hnone
    have hpos := findArrayBranch_position xs1 fs xs2 hfs hnone
    rw [hxs, hpos] at hb
    exact (Option.some.inj hb).symm

/-- Witness for C2: on `\x7b"description":"P","oneOf":[\x7b"type":"string"\x7d,
\x7b"type":"array","description":"B"\x7d]\x7d` the array branch is selected
from second position and the parent description wins; a second input
without a parent description leaves the branch untouched. -/
theorem C2_array_branch_selected_parent_desc_wins_witness :
    ConvertSchema [("description", .str "P"),
        ("oneOf", .arr [.obj [("type", .str "string")],
          .obj [("type", .str "array"), ("description", .str "B")]])] =
      ConvertSchema (withParentDesc
        [("description", .str "P"),
          ("oneOf", .arr [.obj [("type", .str "string")],
            .obj [("type", .str "array"), ("description", .str "B")]])]
        [("type", .str "array"), ("description", .str "B")]) ∧
    lookupJ (withParentDesc
        [("description", .str "P"),
          ("oneOf", .arr [.obj [("type", .str "string")],
            .obj [("type", .str "array"), ("description", .str "B")]])]
        [("type", .str "array"), ("description", .str "B")]) "description" =
      some (.str "P") ∧
    ([("type", .str "array"), ("description", .str "B")] :
        List (String × JVal)) =
      [("type", .str "array"), ("description", .str "B")] ∧
    withParentDesc [("anyOf", .arr [.obj [("type", .str "array")]])]
        [("type", .str "array")] =
      [("type", .str "array")] := by
  have h := C2_array_branch_selected_parent_desc_wins
    [("description", .str "P"),
      ("oneOf", .arr [.obj [("type", .str "string")],
        .obj [("type", .str "array"), ("description", .str "B")]])]
    [.obj [("type", .str "string")],
      .obj [("type", .str "array"), ("description", .str "B")]]
    [("type", .str "array"), ("description", .str "B")] (by rfl) (by rfl)
  have h2 := C2_array_branch_selected_parent_desc_wins
    [("anyOf", .arr [.obj [("type", .str "array")]])]
    [.obj [("type", .str "array")]]
    [("type", .str "array")] (by rfl) (by rfl)
  refine ⟨h.1, h.2.1 "P" (by rfl), ?_, h2.2.2.1 (by rfl)⟩
  exact h.2.2.2 [.obj [("type", .str "string")]]
    [("type", .str "array"), ("description", .str "B")] [] (by rfl) (by rfl)
    (by
      intro gs hgs
      simp only [List.mem_singleton] at hgs
      cases hgs
      intro hcontra
      simp [lookupJ] at hcontra)

/-! ## UpstreamClient failover (client.go) -/

/-- One network attempt's outcome (`httpClient.Do` plus body handling): a
transport-level error, or a response with its HTTP status, whether
`ioutil.ReadAll` succeeds, whether `json.Unmarshal` of the body succeeds,
and an abstract parsed payload. -/
inductive NetOutcome where
  | transportErr
  | resp (status : Nat) (readOk : Bool) (parseOk : Bool) (body : Nat)
  deriving Repr, DecidableEq

/-- The errors a unary call can record or surface. -/
inductive CallErr where
  | credsErr
  | emptyToken
  | transport
  | refreshFailed
  | readFailed
  | upstream (status : Nat) (endpoint : Nat)
  | unmarshal
  | noEndpoints
  deriving Repr, DecidableEq

/-- The `CredentialsProvider` model: `token = none` means `GetCredentials`
errors, otherwise it yields that token (unchanged across re-fetches);
`refreshOk` tells whether `RefreshToken` succeeds. -/
structure ProviderModel where
  token : Option String
  refreshOk : Bool

/-- What one `doRequest` run did: its result (status, readOk, parseOk,
body on success), how many refreshes it performed, and which attempt
numbers it sent to the network. -/
structure DoReqResult where
  result : Except CallErr (Nat × Bool × Bool × Nat)
  refreshes : Nat
  attempts : List Nat

/-- `doRequest` (client.go 55-85) for one endpoint whose network behavior
is `net : Nat → NetOutcome` (attempt number ↦ outcome): fetch credentials
(fail fast on error or blank token); send the request; return any
non-401 response as-is; on 401 refresh once, re-fetch the token and send
exactly one retry to the same endpoint, returning whatever it yields. -/
def doRequest (provider : ProviderModel) (net : Nat → NetOutcome) : DoReqResult :=
  match provider.token with
  | none => ⟨.error .credsErr, 0, []⟩
  | some t =>
      if t = "" then ⟨.error .emptyToken, 0, []⟩
      else
        match net 0 with
        | .transportErr => ⟨.error .transport, 0, [0]⟩
        | .resp s r p b =>
            if s ≠ 401 then ⟨.ok (s, r, p, b), 0, [0]⟩
            else if ¬ provider.refreshOk then ⟨.error .refreshFailed, 1, [0]⟩
            else
              match net 1 with
              | .transportErr => ⟨.error .transport, 1, [0, 1]⟩
              | .resp s2 r2 p2 b2 => ⟨.ok (s2, r2, p2, b2), 1, [0, 1]⟩

/-- How `GenerateContent` classifies one endpoint's `doRequest` run:
errors pass through, then an unreadable body, then a non-200 status, then
an unmarshalable body, else the parsed payload. -/
def endpointOutcome (provider : ProviderModel) (net : Nat → NetOutcome)
    (e : Nat) : Except CallErr Nat :=
  match (doRequest provider net).result with
  | .error err => .error err
  | .ok (s, r, p, b) =>
      if ¬ r then .error .readFailed
      else if s ≠ 200 then .error (.upstream s e)
      else if ¬ p then .error .unmarshal
      else .ok b

/-- The endpoint loop of `GenerateContent` (client.go 168-211), returning
the surfaced result and the trace of `(endpoint, attempt)` network sends in
order.  A `doRequest` error, a body-read failure, and a non-200 status are
recorded in `lastErr` and the loop advances; a 200 body that fails to
unmarshal returns that error at once; a parsed 200 returns its payload;
an exhausted list surfaces the last recorded error. -/
def genContentLoop (provider : ProviderModel) (net : Nat → Nat → NetOutcome)
    (lastErr : Option CallErr) :
    List Nat → Except CallErr Nat × List (Nat × Nat)
  | [] => (.error (lastErr.getD .noEndpoints), [])
  | e :: rest =>
      let d := doRequest provider (net e)
      let tr := d.attempts.map (fun a => (e, a))
      match d.result with
      | .error err =>
          let k := genContentLoop provider net (some err) rest
          (k.1, tr ++ k.2)
      | .ok (s, r, p, b) =>
          if ¬ r then
            let k := genContentLoop provider net (some .readFailed) rest
            (k.1, tr ++ k.2)
          else if s ≠ 200 then
            let k := genContentLoop provider net (some (.upstream s e)) rest
            (k.1, tr ++ k.2)
          else if ¬ p then (.error .unmarshal, tr)
          else (.ok b, tr)

/-- `GenerateContent` (client.go 159-212) over the fixed ordered endpoint
list, with the request body already prepared. -/
def GenerateContent (provider : ProviderModel) (net : Nat → Nat → NetOutcome)
    (endpoints : List Nat) : Except CallErr Nat × List (Nat × Nat) :=
  genContentLoop provider net none endpoints

/-- The claim's failover policy: the first endpoint outcome that is a
success wins; every failure is recorded and the scan advances; an
exhausted list surfaces the last recorded error. -/
def firstOkElseLast (outcomes : List (Except CallErr Nat))
    (lastErr : Option CallErr) : Except CallErr Nat :=
  match outcomes with
  | [] => .error (lastErr.getD .noEndpoints)
  | .ok b :: _ => .ok b
  | .error err :: rest => firstOkElseLast rest (some err)

/-- A successful `doRequest` result is one of the two network outcomes of
that endpoint. -/
theorem doRequest_ok_net {provider : ProviderModel} {net : Nat → NetOutcome}
    {s : Nat} {r p : Bool} {b : Nat}
    (h : (doRequest provider net).result = .ok (s, r, p, b)) :
    net 0 = .resp s r p b ∨ net 1 = .resp s r p b := by
  cases ht : provider.token with
  | none => simp [doRequest, ht] at h
  | some t =>
      by_cases he : t = ""
      · simp [doRequest, ht, he] at h
      · cases h0 : net 0 with
        | transportErr => simp [doRequest, ht, he, h0] at h
        | resp s0 r0 p0 b0 =>
            by_cases h401 : s0 = 401
            · by_cases hrf : provider.refreshOk
              · cases h1 : net 1 with
                | transportErr => simp [doRequest, ht, he, h0, h401, hrf, h1] at h
                | resp s1 r1 p1 b1 =>
                    simp [doRequest, ht, he, h0, h401, hrf, h1] at h
                    rcases h with ⟨hs, hr, hp, hb⟩
                    simp [h1, hs, hr, hp, hb]
              · simp [doRequest, ht, he, h0, h401, hrf] at h
            · simp [doRequest, ht, he, h0, h401] at h
              rcases h with ⟨hs, hr, hp, hb⟩
              simp [h0, hs, hr, hp, hb]

/-- When no endpoint yields a 200 whose body fails to unmarshal, the loop
computes exactly the claim's policy: first success wins, otherwise the
last recorded error surfaces. -/
theorem genContentLoop_firstOk (provider : ProviderModel)
    (net : Nat → Nat → NetOutcome) (es : List Nat) (lastErr : Option CallErr)
    (Hp : ∀ e ∈ es, ∀ a r b, net e a ≠ .resp 200 r false b) :
    (genContentLoop provider net lastErr es).1 =
      firstOkElseLast (es.map (fun e => endpointOutcome provider (net e) e))
        lastErr := by
  induction es generalizing lastErr with
  | nil => rfl
  | cons e rest ih =>
      have He : ∀ a r b, net e a ≠ .resp 200 r false b :=
        Hp e (List.mem_cons_self _ _)
      have Hrest : ∀ e' ∈ rest, ∀ a r b, net e' a ≠ .resp 200 r false b :=
        fun e' he' => Hp e' (List.mem_cons_of_mem _ he')
      cases hd : (doRequest provider (net e)).result with
      | error err =>
          simp [genContentLoop, hd, endpointOutcome, firstOkElseLast, ih _ Hrest]
      | ok v =>
          rcases v with ⟨s, r, p, b⟩
          by_cases hr : r
          · by_cases hs : s = 200
            · by_cases hp : p
              · simp [genContentLoop, hd, endpointOutcome, hr, hs, hp,
                  firstOkElseLast]
              · exfalso
                have hp' : p = false := by simpa using hp
                rcases doRequest_ok_net hd with h0 | h1
                · exact He 0 r b (by rw [h0, hs, hp'])
                · exact He 1 r b (by rw [h1, hs, hp'])
            · simp [genContentLoop, hd, endpointOutcome, hr, hs, firstOkElseLast,
                ih _ Hrest]
          · simp [genContentLoop, hd, endpointOutcome, hr, firstOkElseLast,
              ih _ Hrest]

/-- The trace of the loop is the attempt lists of a prefix of the endpoint
list, in configured order, each attempt tagged with its own endpoint. -/
theorem genContentLoop_trace (provider : ProviderModel)
    (net : Nat → Nat → NetOutcome) (es : List Nat) (lastErr : Option CallErr) :
    ∃ k ≤ es.length,
      (genContentLoop provider net lastErr es).2 =
        ((es.take k).map (fun e =>
          (doRequest provider (net e)).attempts.map (fun a => (e, a)))).join := by
  induction es generalizing lastErr with
  | nil => exact ⟨0, Nat.le_refl 0, rfl⟩
  | cons e rest ih =>
      cases hd : (doRequest provider (net e)).result with
      | error err =>
          rcases ih (some err) with ⟨k, hk, htr⟩
          refine ⟨k + 1, by simpa using Nat.succ_le_succ hk, ?_⟩
          simp [genContentLoop, hd, htr]
      | ok v =>
          rcases v with ⟨s, r, p, b⟩
          by_cases hr : r
          · by_cases hs : s = 200
            · by_cases hp : p
              · refine ⟨1, by simp, ?_⟩
                simp [genContentLoop, hd, hr, hs, hp]
              · refine ⟨1, by simp, ?_⟩
                simp [genContentLoop, hd, hr, hs, hp]
            · rcases ih (some (.upstream s e)) with ⟨k, hk, htr⟩
              refine ⟨k + 1, by simpa using Nat.succ_le_succ hk, ?_⟩
              simp [genContentLoop, hd, hr, hs, htr]
          · rcases ih (some .readFailed) with ⟨k, hk, htr⟩
            refine ⟨k + 1, by simpa using Nat.succ_le_succ hk, ?_⟩
            simp [genContentLoop, hd, hr, htr]

/-- The 401-refresh policy of `doRequest`: at most one refresh; a refresh
happens exactly when valid credentials saw a 401 on the first attempt; at
most two attempts reach the network, and a second attempt (to the same
endpoint) happens exactly when the first got 401 and the refresh
succeeded. -/
theorem doRequest_refresh_policy (provider : ProviderModel)
    (net : Nat → NetOutcome) :
    (doRequest provider net).refreshes ≤ 1 ∧
    ((doRequest provider net).refreshes = 1 ↔
      (∃ t, provider.token = some t ∧ ¬ t = "") ∧
        ∃ r p b, net 0 = .resp 401 r p b) ∧
    ((doRequest provider net).attempts = [0, 1] ∨
      (doRequest provider net).attempts = [0] ∨
      (doRequest provider net).attempts = []) ∧
    ((doRequest provider net).attempts = [0, 1] ↔
      (∃ t, provider.token = some t ∧ ¬ t = "") ∧
        (∃ r p b, net 0 = .resp 401 r p b) ∧ provider.refreshOk = true) := by
  cases ht : provider.token with
  | none => simp [doRequest, ht]
  | some t =>
      by_cases he : t = ""
      · simp [doRequest, ht, he]
      · cases h0 : net 0 with
        | transportErr => simp [doRequest, ht, he, h0]
        | resp s0 r0 p0 b0 =>
            by_cases h401 : s0 = 401
            · by_cases hrf : provider.refreshOk
              · cases h1 : net 1 with
                | transportErr => simp [doRequest, ht, he, h0, h401, hrf, h1]
                | resp s1 r1 p1 b1 => simp [doRequest, ht, he, h0, h401, hrf, h1]
              · simp [doRequest, ht, he, h0, h401, hrf]
            · simp [doRequest, ht, he, h0, h401]

/-- C4 as stated is false on one point: a 200 response whose body fails to
unmarshal makes `GenerateContent` return the unmarshal error at once —
here endpoint 1 is healthy (it would parse to payload 9) yet is never
tried, so the call does not "fail only after every endpoint has been
tried". -/
theorem C4_counterexample_unparseable_200_aborts :
    GenerateContent ⟨some "tok", true⟩
        (fun e _ => if e = 0 then .resp 200 true false 7 else .resp 200 true true 9)
        [0, 1] =
      (.error .unmarshal, [(0, 0)]) ∧
    endpointOutcome ⟨some "tok", true⟩
        ((fun (e : Nat) (_ : Nat) =>
          if e = 0 then NetOutcome.resp 200 true false 7
          else NetOutcome.resp 200 true true 9) 1) 1 =
      .ok 9 := by
  constructor
  · rfl
  · rfl

/-- C4 amended: endpoints are tried strictly in configured order; per
endpoint, a 401 on the first attempt triggers exactly one refresh and (when
the refresh succeeds) exactly one retry of the same endpoint; transport
failures, read failures and non-200 statuses are recorded and the loop
advances; provided no endpoint answers 200 with an unparseable body, the
call returns the first success and otherwise surfaces the last recorded
error.  (A 200 whose body fails to unmarshal instead aborts immediately.) -/
theorem C4_generateContent_failover (provider : ProviderModel)
    (net : Nat → Nat → NetOutcome) (endpoints : List Nat)
    (Hp : ∀ e ∈ endpoints, ∀ a r b, net e a ≠ .resp 200 r false b) :
    (GenerateContent provider net endpoints).1 =
      firstOkElseLast
        (endpoints.map (fun e => endpointOutcome provider (net e) e)) none ∧
    (∃ k ≤ endpoints.length,
      (GenerateContent provider net endpoints).2 =
        ((endpoints.take k).map (fun e =>
          (doRequest provider (net e)).attempts.map (fun a => (e, a)))).join) ∧
    (∀ e : Nat,
      (doRequest provider (net e)).refreshes ≤ 1 ∧
      ((doRequest provider (net e)).refreshes = 1 ↔
        (∃ t, provider.token = some t ∧ ¬ t = "") ∧
          ∃ r p b, net e 0 = .resp 401 r p b) ∧
      ((doRequest provider (net e)).attempts = [0, 1] ∨
        (doRequest provider (net e)).attempts = [0] ∨
        (doRequest provider (net e)).attempts = []) ∧
      ((doRequest provider (net e)).attempts = [0, 1] ↔
        (∃ t, provider.token = some t ∧ ¬ t = "") ∧
          (∃ r p b, net e 0 = .resp 401 r p b) ∧ provider.refreshOk = true)) := by
  exact ⟨genContentLoop_firstOk provider net endpoints none Hp,
    genContentLoop_trace provider net endpoints none,
    fun e => doRequest_refresh_policy provider (net e)⟩

/-- Witness for C4: endpoint 0 gets a 401, refreshes once, retries the
same endpoint, sees a 503 and records it; endpoint 1 answers a parsed 200
with payload 42, which the call returns. -/
theorem C4_generateContent_failover_witness :
    (GenerateContent ⟨some "tok", true⟩
        (fun e a =>
          if e = 0 then (if a = 0 then .resp 401 true true 0 else .resp 503 true true 0)
          else .resp 200 true true 42) [0, 1]).1 =
      firstOkElseLast
        ([0, 1].map (fun e => endpointOutcome ⟨some "tok", true⟩
          ((fun e a =>
            if e = 0 then
              (if a = 0 then NetOutcome.resp 401 true true 0
               else NetOutcome.resp 503 true true 0)
            else NetOutcome.resp 200 true true 42) e) e)) none ∧
    (∃ k ≤ ([0, 1] : List Nat).length,
      (GenerateContent ⟨some "tok", true⟩
        (fun e a =>
          if e = 0 then (if a = 0 then .resp 401 true true 0 else .resp 503 true true 0)
          else .resp 200 true true 42) [0, 1]).2 =
        ((([0, 1] : List Nat).take k).map (fun e =>
          (doRequest ⟨some "tok", true⟩
            ((fun e a =>
              if e = 0 then
                (if a = 0 then NetOutcome.resp 401 true true 0
                 else NetOutcome.resp 503 true true 0)
              else NetOutcome.resp 200 true true 42) e)).attempts.map
            (fun a => (e, a)))).join) ∧
    (∀ e : Nat,
      (doRequest ⟨some "tok", true⟩
        ((fun e a =>
          if e = 0 then
            (if a = 0 then NetOutcome.resp 401 true true 0
             else NetOutcome.resp 503 true true 0)
          else NetOutcome.resp 200 true true 42) e)).refreshes ≤ 1 ∧
      ((doRequest ⟨some "tok", true⟩
        ((fun e a =>
          if e = 0 then
            (if a = 0 then NetOutcome.resp 401 true true 0
             else NetOutcome.resp 503 true true 0)
          else NetOutcome.resp 200 true true 42) e)).refreshes = 1 ↔
        (∃ t, (ProviderModel.mk (some "tok") true).token = some t ∧ ¬ t = "") ∧
          ∃ r p b,
            (fun e a =>
              if e = 0 then
                (if a = 0 then NetOutcome.resp 401 true true 0
                 else NetOutcome.resp 503 true true 0)
              else NetOutcome.resp 200 true true 42) e 0 = .resp 401 r p b) ∧
      ((doRequest ⟨some "tok", true⟩
        ((fun e a =>
          if e = 0 then
            (if a = 0 then NetOutcome.resp 401 true true 0
             else NetOutcome.resp 503 true true 0)
          else NetOutcome.resp 200 true true 42) e)).attempts = [0, 1] ∨
        (doRequest ⟨some "tok", true⟩
          ((fun e a =>
            if e = 0 then
              (if a = 0 then NetOutcome.resp 401 true true 0
               else NetOutcome.resp 503 true true 0)
            else NetOutcome.resp 200 true true 42) e)).attempts = [0] ∨
        (doRequest ⟨some "tok", true⟩
          ((fun e a =>
            if e = 0 then
              (if a = 0 then NetOutcome.resp 401 true true 0
               else NetOutcome.resp 503 true true 0)
            else NetOutcome.resp 200 true true 42) e)).attempts = []) ∧
      ((doRequest ⟨some "tok", true⟩
        ((fun e a =>
          if e = 0 then
            (if a = 0 then NetOutcome.resp 401 true true 0
             else NetOutcome.resp 503 true true 0)
          else NetOutcome.resp 200 true true 42) e)).attempts = [0, 1] ↔
        (∃ t, (ProviderModel.mk (some "tok") true).token = some t ∧ ¬ t = "") ∧
          (∃ r p b,
            (fun e a =>
              if e = 0 then
                (if a = 0 then NetOutcome.resp 401 true true 0
                 else NetOutcome.resp 503 true true 0)
              else NetOutcome.resp 200 true true 42) e 0 = .resp 401 r p b) ∧
          (ProviderModel.mk (some "tok") true).refreshOk = true)) := by
  apply C4_generateContent_failover ⟨some "tok", true⟩
    (fun e a =>
      if e = 0 then (if a = 0 then .resp 401 true true 0 else .resp 503 true true 0)
      else .resp 200 true true 42) [0, 1]
  intro e he a r b
  by_cases hee : e = 0
  · by_cases ha : a = 0
    · simp [hee, ha]
    · simp [hee, ha]
  · simp [hee]

/-! ## MessageTranslator (convertMessagesToGeminiContents, unnamed part 006) -/

/-- The `content` field of an OpenAI message (`interface\x7b\x7d` after JSON
decoding): a string, an array, or anything else (null, number, object —
everything the Go switch sends to its `default` case). -/
inductive MsgContent where
  | str (s : String)
  | arr (items : List JVal)
  | other
  deriving Repr

/-- `openai.ToolCall.Function`. -/
structure ToolCallFn where
  name : String := ""
  arguments : String := ""
  deriving Repr

/-- `openai.ToolCall`. -/
structure ToolCall where
  id : String := ""
  function : ToolCallFn := {}
  deriving Repr

/-- `openai.Message`. -/
structure Message where
  role : String := ""
  content : MsgContent := .other
  name : String := ""
  toolCallID : String := ""
  toolCalls : List ToolCall := []
  deriving Repr

/-- Read of Go's `map[string]string`. -/
def getS : List (String × String) → String → Option String
  | [], _ => none
  | (k', v) :: rest, k => if k' = k then some v else getS rest k

/-- Write of Go's `map[string]string`. -/
def setS : List (String × String) → String → String → List (String × String)
  | [], k, v => [(k, v)]
  | (k', v') :: rest, k, v =>
      if k' = k then (k, v) :: rest else (k', v') :: setS rest k v

/-- The pre-pass of lines 738-746: record `tool_call_id → name` for every
assistant tool call that has both a non-empty ID and a non-empty name. -/
def prePassNames (messages : List Message) : List (String × String) :=
  messages.foldl
    (fun m msg =>
      if msg.role = "assistant" ∧ ¬ msg.toolCalls.isEmpty then
        msg.toolCalls.foldl
          (fun m2 tc =>
            if ¬ tc.id = "" ∧ ¬ tc.function.name = "" then
              setS m2 tc.id tc.function.name
            else m2) m
      else m) []

/-- The `p["type"] == "text"` test on an array item map. -/
def typeIsText (fs : List (String × JVal)) : Bool :=
  match lookupJ fs "type" with
  | some (.str t) => t = "text"
  | _ => false

/-- System-message parts (lines 758-774): a non-empty string becomes one
text part; an array contributes its non-empty `text`-typed items. -/
def sysTextParts (content : MsgContent) : List ContentPart :=
  match content with
  | .str s => if s = "" then [] else [⟨s, "", none, none⟩]
  | .arr items =>
      items.filterMap (fun p =>
        match p with
        | .obj fs =>
            if typeIsText fs then
              match asStr (lookupJ fs "text") with
              | some txt => if txt = "" then none else some ⟨txt, "", none, none⟩
              | none => none
            else none
        | _ => none)
  | .other => []

/-- Non-tool array content (lines 885-893): every `text`-typed item with a
string `text` field becomes a text part (empty strings included). -/
def arrTextParts : List JVal → List ContentPart
  | [] => []
  | .obj fs :: rest =>
      if typeIsText fs then
        match asStr (lookupJ fs "text") with
        | some txt => ⟨txt, "", none, none⟩ :: arrTextParts rest
        | none => arrTextParts rest
      else arrTextParts rest
  | _ :: rest => arrTextParts rest

/-- Tool array content (lines 835-845): the non-empty `text`-typed items
joined with newline. -/
def toolArrJoined (items : List JVal) : String :=
  joinWith "\n"
    (items.filterMap (fun p =>
      match p with
      | .obj fs =>
          if typeIsText fs then
            match asStr (lookupJ fs "text") with
            | some txt => if txt = "" then none else some txt
            | none => none
          else none
      | _ => none))

/-- Tool-response name resolution (lines 792-798): explicit message name
first, else the name recorded for the `tool_call_id`; `""` means
unresolved. -/
def resolveToolName (nameByID : List (String × String)) (msg : Message) : String :=
  if ¬ msg.name = "" then msg.name
  else if ¬ msg.toolCallID = "" then
    match getS nameByID msg.toolCallID with
    | some n => n
    | none => ""
  else ""

/-- Tool-response ID resolution (lines 815-820): the trimmed
`tool_call_id` if non-blank, else the last ID recorded for the resolved
name, else blank. -/
def resolveToolID (idByName : List (String × String)) (msg : Message)
    (resolvedName : String) : String :=
  let rid := trimStr msg.toolCallID
  if rid = "" ∧ ¬ resolvedName = "" then
    match getS idByName resolvedName with
    | some id => id
    | none => ""
  else rid

/-- Role mapping (lines 778-787). -/
def mapRole (role : String) : String :=
  match role with
  | "user" => "user"
  | "assistant" => "model"
  | _ => "user"

/-- The name/ID maps plus the fresh-ID counter threaded through the
translation. -/
structure TState where
  nameByID : List (String × String) := []
  idByName : List (String × String) := []
  ctr : Nat := 0
  deriving Repr

/-- Assistant tool calls to `functionCall` parts (lines 899-921):
JSON-decode the arguments (empty map on failure, via the abstract
`parseArgs`), generate an ID when the given one is blank (via the abstract
UUID supply `gen`), and record both directions of the name/ID maps for
named calls. -/
def applyToolCalls (parseArgs : String → Option (List (String × JVal)))
    (gen : Nat → String) (st : TState) :
    List ToolCall → TState × List ContentPart
  | [] => (st, [])
  | tc :: rest =>
      let args := (parseArgs tc.function.arguments).getD []
      let id := if trimStr tc.id = "" then gen st.ctr else tc.id
      let ctr2 := if trimStr tc.id = "" then st.ctr + 1 else st.ctr
      let st1 : TState :=
        if ¬ tc.function.name = "" then
          ⟨setS st.nameByID id tc.function.name,
            setS st.idByName tc.function.name id, ctr2⟩
        else ⟨st.nameByID, st.idByName, ctr2⟩
      let s2 := applyToolCalls parseArgs gen st1 rest
      (s2.1, ⟨"", "", some ⟨id, tc.function.name, args⟩, none⟩ :: s2.2)

/-- The state accumulated by the message loop. -/
structure TransAcc where
  st : TState := {}
  pending : List ContentPart := []
  contents : List Content := []
  sysInstr : Option SystemInstruction := none

/-- Whether the content switch has a string or array case (the cases that
perform the tool-name check). -/
def contentIsStrOrArr : MsgContent → Bool
  | .str _ => true
  | .arr _ => true
  | .other => false

/-- One iteration of the message loop (lines 748-935). -/
def stepMsg (parseArgs : String → Option (List (String × JVal)))
    (gen : Nat → String) (acc : TransAcc) (msg : Message) :
    Except String TransAcc :=
  if msg.role = "system" then
    let si :=
      match acc.sysInstr with
      | none => (⟨"system", []⟩ : SystemInstruction)
      | some si => si
    .ok { acc with sysInstr := some ⟨si.role, si.parts ++ sysTextParts msg.content⟩ }
  else
    let partsE : Except String (List ContentPart) :=
      match msg.content with
      | .str s =>
          if msg.role = "tool" then
            let rn := resolveToolName acc.st.nameByID msg
            if rn = "" then
              .error "tool response missing function name and unresolved tool_call_id"
            else
              .ok [⟨"", "", none,
                some ⟨resolveToolID acc.st.idByName msg rn, rn,
                  [("output", .str s)]⟩⟩]
          else .ok [⟨s, "", none, none⟩]
      | .arr items =>
          if msg.role = "tool" then
            let rn := resolveToolName acc.st.nameByID msg
            if rn = "" then
              .error "tool response missing function name and unresolved tool_call_id"
            else
              .ok [⟨"", "", none,
                some ⟨resolveToolID acc.st.idByName msg rn, rn,
                  [("output", .str (toolArrJoined items))]⟩⟩]
          else .ok (arrTextParts items)
      | .other => .ok []
    match partsE with
    | .error e => .error e
    | .ok parts0 =>
        let s2 :=
          if msg.role = "assistant" ∧ ¬ msg.toolCalls.isEmpty then
            applyToolCalls parseArgs gen acc.st msg.toolCalls
          else (acc.st, [])
        let parts1 := parts0 ++ s2.2
        if lowerAscii msg.role = "tool" then
          .ok { acc with st := s2.1, pending := acc.pending ++ parts1 }
        else
          .ok { acc with
                st := s2.1
                contents := acc.contents ++
                  (if parts1.isEmpty then [] else [⟨mapRole msg.role, parts1⟩]) }

/-- The message loop. -/
def runMsgs (parseArgs : String → Option (List (String × JVal)))
    (gen : Nat → String) (acc : TransAcc) :
    List Message → Except String TransAcc
  | [] => .ok acc
  | m :: rest =>
      match stepMsg parseArgs gen acc m with
      | .error e => .error e
      | .ok acc2 => runMsgs parseArgs gen acc2 rest

/-- `convertMessagesToGeminiContents` (lines 733-944): run the pre-pass
and the loop, then append the deferred tool parts as one synthetic
user-role content at the very end. -/
def convertMessagesToGeminiContents
    (parseArgs : String → Option (List (String × JVal)))
    (gen : Nat → String) (messages : List Message) :
    Except String (List Content × Option SystemInstruction) :=
  match runMsgs parseArgs gen ⟨⟨prePassNames messages, [], 0⟩, [], [], none⟩ messages with
  | .error e => .error e
  | .ok acc =>
      .ok (acc.contents ++
            (if acc.pending.isEmpty then [] else [⟨"user", acc.pending⟩]),
           acc.sysInstr)

/-- ASCII lowering fixes the literal `"tool"`. -/
theorem lowerAscii_tool : lowerAscii "tool" = "tool" := by decide

/-- `stepMsg` fails exactly on a tool-role message whose content is a
string or an array and whose function name does not resolve. -/
theorem stepMsg_error_iff (parseArgs : String → Option (List (String × JVal)))
    (gen : Nat → String) (acc : TransAcc) (msg : Message) :
    (∃ e, stepMsg parseArgs gen acc msg = .error e) ↔
      (msg.role = "tool" ∧ contentIsStrOrArr msg.content = true ∧
        resolveToolName acc.st.nameByID msg = "") := by
  constructor
  · rintro ⟨e, he⟩
    by_cases hsys : msg.role = "system"
    · simp [stepMsg, hsys] at he
    · by_cases htool : msg.role = "tool"
      · cases hc : msg.content with
        | str s =>
            by_cases hrn : resolveToolName acc.st.nameByID msg = ""
            · exact ⟨htool, by simp [hc, contentIsStrOrArr], hrn⟩
            · simp [stepMsg, hsys, htool, hrn, hc, lowerAscii_tool] at he
        | arr items =>
            by_cases hrn : resolveToolName acc.st.nameByID msg = ""
            · exact ⟨htool, by simp [hc, contentIsStrOrArr], hrn⟩
            · simp [stepMsg, hsys, htool, hrn, hc, lowerAscii_tool] at he
        | other => simp [stepMsg, hsys, htool, hc, lowerAscii_tool] at he
      · by_cases hlow : lowerAscii msg.role = "tool"
        · cases hc : msg.content with
          | str s => simp [stepMsg, hsys, htool, hc, hlow] at he
          | arr items => simp [stepMsg, hsys, htool, hc, hlow] at he
          | other => simp [stepMsg, hsys, htool, hc, hlow] at he
        · cases hc : msg.content with
          | str s => simp [stepMsg, hsys, htool, hc, hlow] at he
          | arr items => simp [stepMsg, hsys, htool, hc, hlow] at he
          | other => simp [stepMsg, hsys, htool, hc, hlow] at he
  · rintro ⟨htool, hsa, hrn⟩
    have hsys : ¬ msg.role = "system" := by rw [htool]; decide
    refine ⟨"tool response missing function name and unresolved tool_call_id", ?_⟩
    cases hc : msg.content with
    | str s => simp [stepMsg, hsys, htool, hrn, hc]
    | arr items => simp [stepMsg, hsys, htool, hrn, hc]
    | other =>
        rw [hc] at hsa
        simp [contentIsStrOrArr] at hsa

/-- The loop fails exactly when, after successfully processing some
prefix, the next message makes `stepMsg` fail. -/
theorem runMsgs_error_iff (parseArgs : String → Option (List (String × JVal)))
    (gen : Nat → String) (msgs : List Message) (acc : TransAcc) :
    (∃ e, runMsgs parseArgs gen acc msgs = .error e) ↔
      ∃ l1 m l2 acc2, msgs = l1 ++ m :: l2 ∧
        runMsgs parseArgs gen acc l1 = .ok acc2 ∧
        ∃ e, stepMsg parseArgs gen acc2 m = .error e := by
  induction msgs generalizing acc with
  | nil =>
      simp only [runMsgs]
      constructor
      · rintro ⟨e, he⟩
        cases he
      · rintro ⟨l1, m, l2, acc2, hspl, _, _⟩
        exact absurd hspl (by simp)
  | cons m0 rest ih =>
      cases hstep : stepMsg parseArgs gen acc m0 with
      | error e =>
          constructor
          · intro _
            exact ⟨[], m0, rest, acc, rfl, rfl, e, hstep⟩
          · intro _
            exact ⟨e, by simp [runMsgs, hstep]⟩
      | ok acc2 =>
          have hrw : runMsgs parseArgs gen acc (m0 :: rest) =
              runMsgs parseArgs gen acc2 rest := by
            simp [runMsgs, hstep]
          rw [hrw, ih acc2]
          constructor
          · rintro ⟨l1, m, l2, acc3, hspl, hrun, herr⟩
            refine ⟨m0 :: l1, m, l2, acc3, ?_⟩
            rcases hspl with rfl
            exact ⟨rfl, by simp [runMsgs, hstep, hrun], herr⟩
          · rintro ⟨l1, m, l2, acc3, hspl, hrun, herr⟩
            cases l1 with
            | nil =>
                simp only [runMsgs] at hrun
                cases hrun
                simp only [List.nil_append, List.cons.injEq] at hspl
                rcases hspl with ⟨rfl, rfl⟩
                rcases herr with ⟨e, he⟩
                rw [hstep] at he
                cases he
            | cons m1 l1t =>
                simp only [List.cons_append, List.cons.injEq] at hspl
                rcases hspl with ⟨rfl, rfl⟩
                refine ⟨l1t, m, l2, acc3, rfl, ?_, herr⟩
                simp only [runMsgs, hstep] at hrun
                exact hrun

/-- C8 as stated is false: a tool-role message whose content is neither a
string nor an array (here: JSON null / absent content, the Go `default`
case) has no discoverable name and no tool_call_id, yet translation
succeeds and silently drops it instead of returning an error. -/
theorem C8_counterexample_null_content_tool_message :
    convertMessagesToGeminiContents (fun _ => none) (fun _ => "u")
        [⟨"tool", .other, "", "", []⟩] = .ok ([], none) := by
  rfl

/-- C8 amended: translation returns an error if and only if some tool-role
message whose content is a string or an array (the only shapes that reach
the name check) has an unresolvable function name — resolved as the
explicit name field first, else the name recorded for its tool_call_id.  A
tool-role message with any other content shape is silently ignored. -/
theorem C8_tool_name_resolution_error
    (parseArgs : String → Option (List (String × JVal))) (gen : Nat → String)
    (msgs : List Message) :
    ((∃ e, convertMessagesToGeminiContents parseArgs gen msgs = .error e) ↔
      ∃ l1 m l2 acc2, msgs = l1 ++ m :: l2 ∧
        runMsgs parseArgs gen ⟨⟨prePassNames msgs, [], 0⟩, [], [], none⟩ l1 =
          .ok acc2 ∧
        m.role = "tool" ∧ contentIsStrOrArr m.content = true ∧
        resolveToolName acc2.st.nameByID m = "") ∧
    (∀ (nameByID : List (String × String)) (m : Message),
      resolveToolName nameByID m = "" ↔
        (m.name = "" ∧ (m.toolCallID = "" ∨ getS nameByID m.toolCallID = none ∨
          getS nameByID m.toolCallID = some ""))) := by
  constructor
  · have h1 : (∃ e, convertMessagesToGeminiContents parseArgs gen msgs = .error e) ↔
        (∃ e, runMsgs parseArgs gen ⟨⟨prePassNames msgs, [], 0⟩, [], [], none⟩ msgs =
          .error e) := by
      unfold convertMessagesToGeminiContents
      cases hr : runMsgs parseArgs gen ⟨⟨prePassNames msgs, [], 0⟩, [], [], none⟩ msgs with
      | error e => simp [hr]
      | ok acc => simp [hr]
    rw [h1, runMsgs_error_iff]
    constructor
    · rintro ⟨l1, m, l2, acc2, hspl, hrun, herr⟩
      rcases (stepMsg_error_iff parseArgs gen acc2 m).mp herr with ⟨ha, hb, hcc⟩
      exact ⟨l1, m, l2, acc2, hspl, hrun, ha, hb, hcc⟩
    · rintro ⟨l1, m, l2, acc2, hspl, hrun, ha, hb, hcc⟩
      exact ⟨l1, m, l2, acc2, hspl, hrun,
        (stepMsg_error_iff parseArgs gen acc2 m).mpr ⟨ha, hb, hcc⟩⟩
  · intro nameByID m
    unfold resolveToolName
    by_cases hn : m.name = ""
    · by_cases hid : m.toolCallID = ""
      · simp [hn, hid]
      · cases hg : getS nameByID m.toolCallID with
        | none => simp [hn, hid, hg]
        | some n => simp [hn, hid, hg]
    · simp [hn]

/-- Witness for C8 at a concrete message list: a tool-role message with
string content and no resolvable name makes the translation fail, as the
amended characterization predicts. -/
theorem C8_tool_name_resolution_error_witness :
    ((∃ e, convertMessagesToGeminiContents (fun _ => none) (fun _ => "u")
        [⟨"tool", .str "r", "", "", []⟩] = .error e) ↔
      ∃ l1 m l2 acc2, [⟨"tool", .str "r", "", "", []⟩] = l1 ++ m :: l2 ∧
        runMsgs (fun _ => none) (fun _ => "u")
          ⟨⟨prePassNames [⟨"tool", .str "r", "", "", []⟩], [], 0⟩, [], [], none⟩ l1 =
          .ok acc2 ∧
        m.role = "tool" ∧ contentIsStrOrArr m.content = true ∧
        resolveToolName acc2.st.nameByID m = "") ∧
    (∀ (nameByID : List (String × String)) (m : Message),
      resolveToolName nameByID m = "" ↔
        (m.name = "" ∧ (m.toolCallID = "" ∨ getS nameByID m.toolCallID = none ∨
          getS nameByID m.toolCallID = some ""))) :=
  C8_tool_name_resolution_error (fun _ => none) (fun _ => "u")
    [⟨"tool", .str "r", "", "", []⟩]

/-- The parts built from assistant tool calls never carry a
`functionResponse`. -/
theorem applyToolCalls_no_fr (parseArgs : String → Option (List (String × JVal)))
    (gen : Nat → String) (st : TState) (tcs : List ToolCall) :
    ∀ p ∈ (applyToolCalls parseArgs gen st tcs).2, p.functionResponse = none := by
  induction tcs generalizing st with
  | nil =>
      intro p hp
      simp [applyToolCalls] at hp
  | cons tc rest ih =>
      intro p hp
      simp only [applyToolCalls, List.mem_cons] at hp
      rcases hp with rfl | hp
      · rfl
      · exact ih _ p hp

/-- The text parts built from non-tool array content never carry a
`functionResponse`. -/
theorem arrTextParts_no_fr (items : List JVal) :
    ∀ p ∈ arrTextParts items, p.functionResponse = none := by
  induction items with
  | nil =>
      intro p hp
      simp [arrTextParts] at hp
  | cons x rest ih =>
      intro p hp
      cases x with
      | obj fs =>
          simp only [arrTextParts] at hp
          by_cases ht : typeIsText fs
          · rw [if_pos ht] at hp
            cases ha : asStr (lookupJ fs "text") with
            | some txt =>
                rw [ha] at hp
                rcases List.mem_cons.mp hp with rfl | hp2
                · rfl
                · exact ih p hp2
            | none =>
                rw [ha] at hp
                exact ih p hp
          · rw [if_neg ht] at hp
            exact ih p hp
      | str s => exact ih p hp
      | num n => exact ih p hp
      | bool b => exact ih p hp
      | null => exact ih p hp
      | arr ys => exact ih p hp

/-- Appending a content whose parts are all response-free preserves the
no-`functionResponse` invariant. -/
theorem no_fr_append {cs : List Content} {parts1 : List ContentPart} {role : String}
    (hinv : ∀ c ∈ cs, ∀ p ∈ c.parts, p.functionResponse = none)
    (hparts : ∀ p ∈ parts1, p.functionResponse = none) :
    ∀ c ∈ cs ++ (if parts1.isEmpty then [] else [⟨role, parts1⟩]),
      ∀ p ∈ c.parts, p.functionResponse = none := by
  intro c hc
  rcases List.mem_append.mp hc with hc | hc
  · exact hinv c hc
  · split at hc
    · cases hc
    · rcases List.mem_singleton.mp hc with rfl
      intro p hp
      exact hparts p hp

/-- A message whose lower-cased role is `tool` never adds to the content
list or to the system instruction when its step succeeds: its parts are
deferred to the pending tool parts. -/
theorem stepMsg_tool_defers (parseArgs : String → Option (List (String × JVal)))
    (gen : Nat → String) (acc : TransAcc) (msg : Message) (acc2 : TransAcc)
    (hlow : lowerAscii msg.role = "tool")
    (h : stepMsg parseArgs gen acc msg = .ok acc2) :
    acc2.contents = acc.contents ∧ acc2.sysInstr = acc.sysInstr := by
  have hsys : ¬ msg.role = "system" := by
    intro hs
    rw [hs] at hlow
    exact absurd hlow (by decide)
  cases hc : msg.content with
  | str s =>
      by_cases htool : msg.role = "tool"
      · by_cases hrn : resolveToolName acc.st.nameByID msg = ""
        · simp [stepMsg, hsys, hc, htool, hrn, hlow, lowerAscii_tool] at h
        · simp [stepMsg, hsys, hc, htool, hrn, hlow, lowerAscii_tool] at h
          subst h
          exact ⟨rfl, rfl⟩
      · simp [stepMsg, hsys, hc, htool, hlow] at h
        subst h
        exact ⟨rfl, rfl⟩
  | arr items =>
      by_cases htool : msg.role = "tool"
      · by_cases hrn : resolveToolName acc.st.nameByID msg = ""
        · simp [stepMsg, hsys, hc, htool, hrn, hlow, lowerAscii_tool] at h
        · simp [stepMsg, hsys, hc, htool, hrn, hlow, lowerAscii_tool] at h
          subst h
          exact ⟨rfl, rfl⟩
      · simp [stepMsg, hsys, hc, htool, hlow] at h
        subst h
        exact ⟨rfl, rfl⟩
  | other =>
      simp [stepMsg, hsys, hc, hlow] at h
      subst h
      exact ⟨rfl, rfl⟩

/-- A successful step preserves the invariant that no content in the
accumulated list carries a `functionResponse` part. -/
theorem stepMsg_no_fr (parseArgs : String → Option (List (String × JVal)))
    (gen : Nat → String) (acc : TransAcc) (msg : Message) (acc2 : TransAcc)
    (h : stepMsg parseArgs gen acc msg = .ok acc2)
    (hinv : ∀ c ∈ acc.contents, ∀ p ∈ c.parts, p.functionResponse = none) :
    ∀ c ∈ acc2.contents, ∀ p ∈ c.parts, p.functionResponse = none := by
  by_cases hsys : msg.role = "system"
  · simp [stepMsg, hsys] at h
    subst h
    simpa using hinv
  · by_cases hlow : lowerAscii msg.role = "tool"
    · rw [(stepMsg_tool_defers parseArgs gen acc msg acc2 hlow h).1]
      exact hinv
    · have htool : ¬ msg.role = "tool" := by
        intro ht
        rw [ht] at hlow
        exact hlow lowerAscii_tool
      have hcalls : ∀ p ∈ (if msg.role = "assistant" ∧ ¬ msg.toolCalls.isEmpty then
          applyToolCalls parseArgs gen acc.st msg.toolCalls
        else (acc.st, [])).2, p.functionResponse = none := by
        split
        · exact applyToolCalls_no_fr parseArgs gen acc.st msg.toolCalls
        · intro p hp
          cases hp
      cases hc : msg.content with
      | str s =>
          simp [stepMsg, hsys, hc, htool, hlow] at h
          subst h
          intro c hc2
          rcases List.mem_append.mp hc2 with hc3 | hc3
          · exact hinv c hc3
          · rcases List.mem_singleton.mp hc3 with rfl
            intro p hp
            rcases List.mem_cons.mp hp with rfl | hp2
            · rfl
            · exact hcalls p hp2
      | arr items =>
          simp [stepMsg, hsys, hc, htool, hlow] at h
          subst h
          refine no_fr_append hinv ?_
          intro p hp
          rcases List.mem_append.mp hp with hp2 | hp2
          · exact arrTextParts_no_fr items p hp2
          · exact hcalls p hp2
      | other =>
          simp [stepMsg, hsys, hc, htool, hlow] at h
          subst h
          refine no_fr_append hinv ?_
          intro p hp
          exact hcalls p hp

/-- The loop preserves the no-`functionResponse` invariant on the content
list. -/
theorem runMsgs_no_fr (parseArgs : String → Option (List (String × JVal)))
    (gen : Nat → String) (msgs : List Message) (acc acc2 : TransAcc)
    (h : runMsgs parseArgs gen acc msgs = .ok acc2)
    (hinv : ∀ c ∈ acc.contents, ∀ p ∈ c.parts, p.functionResponse = none) :
    ∀ c ∈ acc2.contents, ∀ p ∈ c.parts, p.functionResponse = none := by
  induction msgs generalizing acc with
  | nil =>
      cases h
      exact hinv
  | cons m rest ih =>
      cases hstep : stepMsg parseArgs gen acc m with
      | error e =>
          rw [runMsgs, hstep] at h
          cases h
      | ok acc1 =>
          rw [runMsgs, hstep] at h
          exact ih acc1 h (stepMsg_no_fr parseArgs gen acc m acc1 hstep hinv)

/-- C9: in a successful translation, every `functionResponse` part lives
in the single synthetic user-role content appended at the very end — the
preceding contents contain none — and a message whose (lower-cased) role
is `tool` never contributes a content of its own at its original
position. -/
theorem C9_tool_responses_trail
    (parseArgs : String → Option (List (String × JVal))) (gen : Nat → String) :
    (∀ (msgs : List Message) (contents : List Content)
        (si : Option SystemInstruction),
      convertMessagesToGeminiContents parseArgs gen msgs = .ok (contents, si) →
      ∃ front pend, contents =
          front ++ (if List.isEmpty pend then [] else [⟨"user", pend⟩]) ∧
        ∀ c ∈ front, ∀ p ∈ c.parts, p.functionResponse = none) ∧
    (∀ (acc : TransAcc) (msg : Message) (acc2 : TransAcc),
      lowerAscii msg.role = "tool" →
      stepMsg parseArgs gen acc msg = .ok acc2 →
      acc2.contents = acc.contents ∧ acc2.sysInstr = acc.sysInstr) := by
  constructor
  · intro msgs contents si h
    unfold convertMessagesToGeminiContents at h
    cases hr : runMsgs parseArgs gen ⟨⟨prePassNames msgs, [], 0⟩, [], [], none⟩ msgs with
    | error e =>
        rw [hr] at h
        cases h
    | ok acc =>
        rw [hr] at h
        have h2 := Except.ok.inj h
        have h3 : contents = acc.contents ++
            (if List.isEmpty acc.pending then [] else [⟨"user", acc.pending⟩]) := by
          have h4 := congrArg Prod.fst h2
          simpa using h4.symm
        exact ⟨acc.contents, acc.pending, h3,
          runMsgs_no_fr parseArgs gen msgs _ acc hr (by intro c hc; cases hc)⟩
  · exact fun acc msg acc2 => stepMsg_tool_defers parseArgs gen acc msg acc2

/-- Witness for C9: the list `[user "hi", assistant with one tool call,
tool response]` translates with the tool response in the trailing
synthetic user content; a tool-role step leaves contents and system
instruction untouched. -/
theorem C9_tool_responses_trail_witness :
    (∃ front pend,
      ([⟨"user", [⟨"hi", "", none, none⟩]⟩,
        ⟨"model", [⟨"", "", none, none⟩, ⟨"", "", some ⟨"id1", "f", []⟩, none⟩]⟩,
        ⟨"user", [⟨"", "", none,
          some ⟨"id1", "f", [("output", JVal.str "out")]⟩⟩]⟩] : List Content) =
        front ++ (if List.isEmpty pend then [] else [⟨"user", pend⟩]) ∧
      ∀ c ∈ front, ∀ p ∈ c.parts, p.functionResponse = none) ∧
    ((⟨⟨[], [], 0⟩, [⟨"", "", none, some ⟨"", "nm", [("output", JVal.str "r")]⟩⟩],
        [⟨"user", [⟨"x", "", none, none⟩]⟩], none⟩ : TransAcc).contents =
      (⟨⟨[], [], 0⟩, [], [⟨"user", [⟨"x", "", none, none⟩]⟩], none⟩ :
        TransAcc).contents ∧
      (⟨⟨[], [], 0⟩, [⟨"", "", none, some ⟨"", "nm", [("output", JVal.str "r")]⟩⟩],
        [⟨"user", [⟨"x", "", none, none⟩]⟩], none⟩ : TransAcc).sysInstr =
      (⟨⟨[], [], 0⟩, [], [⟨"user", [⟨"x", "", none, none⟩]⟩], none⟩ :
        TransAcc).sysInstr) := by
  constructor
  · exact (C9_tool_responses_trail (fun _ => none) (fun _ => "u")).1
      [⟨"user", .str "hi", "", "", []⟩,
       ⟨"assistant", .str "", "", "", [⟨"id1", ⟨"f", "x"⟩⟩]⟩,
       ⟨"tool", .str "out", "f", "id1", []⟩]
      [⟨"user", [⟨"hi", "", none, none⟩]⟩,
       ⟨"model", [⟨"", "", none, none⟩, ⟨"", "", some ⟨"id1", "f", []⟩, none⟩]⟩,
       ⟨"user", [⟨"", "", none,
         some ⟨"id1", "f", [("output", JVal.str "out")]⟩⟩]⟩]
      none (by rfl)
  · exact (C9_tool_responses_trail (fun _ => none) (fun _ => "u")).2
      ⟨⟨[], [], 0⟩, [], [⟨"user", [⟨"x", "", none, none⟩]⟩], none⟩
      ⟨"tool", .str "r", "nm", "", []⟩
      ⟨⟨[], [], 0⟩, [⟨"", "", none, some ⟨"", "nm", [("output", JVal.str "r")]⟩⟩],
        [⟨"user", [⟨"x", "", none, none⟩]⟩], none⟩
      (by decide) (by rfl)

end AGProxy
